import Mathlib

/-!
# solana-exporter: `cmd/solana_exporter/utils.go`

A shallow embedding of the helper functions of the exporter and the
properties its specification states about them.

Conventions of the embedding.

* A Go `map[string]V` is an association list with pairwise distinct keys
  (`AList`).  Reading a key is `AList.lookup`, the assignment `m[k] = v` is
  `AList.insert`, and `for k, v := range m` visits `m.entries`, which is one
  of the orders Go may choose; the statements below speak about maps only
  through `lookup` and membership, so they do not depend on that order.
* A Go slice is a `List`; the `nil` slice and the empty slice are both `[]`.
* An `int64` is an `Int`; the only arithmetic of the source, `+`, is followed by
  an explicit two's-complement wrap (`wrapInt64`).
* The query capability `rpc.Provider` is a record of functions over an explicit
  state `σ`, so that successive queries may answer differently; a query answers
  `Except.error e` when its Go error is not `nil`.
* A Go function returning `(T, error)` returns a `GoResult`, whose components
  `val` and `err` are `none` exactly when the Go value is `nil`.
* `float64` balances are only stored, never computed on: their type is a
  parameter `β`.
* The element type of `CombineUnique` is any type with Go's `==` (`Comparable`), which
  need not be an equivalence and may panic; a call that panics returns `none`.
* The `context.Context` argument is not modelled.
-/

namespace SolanaExporter

/-! ## Data model -/

/-- Go `error` values as far as the file builds and inspects them. -/
inductive GoError where
  /-- An error produced by the query capability (or any other foreign error). -/
  | foreign (msg : String)
  /-- The value of `fmt.Errorf(format, ...)` with no `%w` verb; `msg` is the formatted text. -/
  | errorf (msg : String)
  /-- The value of `fmt.Errorf(context + "%w", inner)`: text `context ++ inner.Error()`,
  and `Unwrap()` gives back `inner`. -/
  | wrapf (context : String) (inner : GoError)
  deriving DecidableEq, Repr

/-- The method `Error()`. -/
def GoError.Error : GoError → String
  | .foreign msg => msg
  | .errorf msg => msg
  | .wrapf context inner => context ++ inner.Error

/-- The method `Unwrap()` (`errors.Unwrap`): the wrapped error, if any. -/
def GoError.Unwrap : GoError → Option GoError
  | .foreign _ => none
  | .errorf _ => none
  | .wrapf _ inner => some inner

/-- What a call of one of the querying functions leaves behind: the Go result pair
`(T, error)`, where `none` stands for `nil`, the warnings written with
`klog.Warningf`, and the state of the query capability after the call. -/
structure GoResult (σ α : Type) where
  val : Option α
  err : Option GoError
  log : List String
  state : σ

/-- Go maps with string keys. -/
abbrev GoMap (V : Type) := AList (fun _ : String => V)

/-- The type `map[string][]int64` of leader schedules. -/
abbrev Schedule := GoMap (List Int)

/-- Smallest `int64`. -/
def minInt64 : Int := -(2 ^ 63)

/-- Largest `int64`. -/
def maxInt64 : Int := 2 ^ 63 - 1

/-- Being a value of type `int64`. -/
def IsInt64 (i : Int) : Prop := minInt64 ≤ i ∧ i ≤ maxInt64

instance (i : Int) : Decidable (IsInt64 i) := by
  unfold IsInt64; infer_instance

/-- Two's-complement reduction of an integer to `int64`. -/
def wrapInt64 (i : Int) : Int := (i + 2 ^ 63) % 2 ^ 64 - 2 ^ 63

/-- Go's `+` on `int64`. -/
def add64 (a b : Int) : Int := wrapInt64 (a + b)

/-- Go's `-` on `int64`. -/
def sub64 (a b : Int) : Int := wrapInt64 (a - b)

/-! ## `SelectFromSchedule` -/

/-- The inner loop of `SelectFromSchedule`: starting from the `nil` slice, append
every `value` with `value >= startSlot && value <= endSlot`. -/
def selectValues (values : List Int) (startSlot endSlot : Int) : List Int :=
  values.foldl
    (fun selectedValues value =>
      if value ≥ startSlot ∧ value ≤ endSlot then selectedValues ++ [value] else selectedValues)
    []

/-- `SelectFromSchedule` takes a leader-schedule and returns a trimmed leader-schedule
containing only the slots within the provided range. -/
def SelectFromSchedule (schedule : Schedule) (startSlot endSlot : Int) : Schedule :=
  schedule.entries.foldl
    (fun selected kv => selected.insert kv.1 (selectValues kv.2 startSlot endSlot))
    (∅ : Schedule)

/-! ## The query capability -/

/-- Modelled from the spec: the type `rpc.Commitment` of package `pkg/rpc`, an
enumerated consistency level, kept as its name. -/
abbrev Commitment := String

/-- Modelled from the spec: the constant `rpc.CommitmentConfirmed`, the "confirmed" level. -/
def CommitmentConfirmed : Commitment := "confirmed"

/-- Modelled from the spec: a vote-account record of `pkg/rpc`, with the two
fields the file reads. -/
structure VoteAccount where
  NodePubkey : String
  VotePubkey : String
  deriving DecidableEq, Repr

/-- Modelled from the spec: the vote-account snapshot of `pkg/rpc`, the "current"
and the "delinquent" records. -/
structure VoteAccounts where
  Current : List VoteAccount
  Delinquent : List VoteAccount
  deriving DecidableEq, Repr

/-- Modelled from the spec: the interface `rpc.Provider`, with the three queries the
file makes.  Each takes the state of the capability and returns the answer and the
next state. -/
structure Provider (σ β : Type) where
  GetLeaderSchedule : σ → Commitment → Int → Except GoError Schedule × σ
  GetVoteAccounts : σ → Commitment → Option String → Except GoError VoteAccounts × σ
  GetBalance : σ → Commitment → String → Except GoError β × σ

/-! ## `GetTrimmedLeaderSchedule` -/

/-- The loop `for i, slotIndex := range leaderSlots { absoluteSlots[i] = slotIndex + epochFirstSlot }`
run on the slice `make([]int64, len(leaderSlots))`. -/
def absoluteSlots (leaderSlots : List Int) (epochFirstSlot : Int) : List Int :=
  leaderSlots.enum.foldl
    (fun absoluteSlots p => absoluteSlots.set p.1 (add64 p.2 epochFirstSlot))
    (List.replicate leaderSlots.length 0)

/-- One round of the loop over `identities`: the schedule built so far and the warnings
logged so far. -/
def trimStep (leaderSchedule : Schedule) (epochFirstSlot : Int)
    (acc : Schedule × List String) (id : String) : Schedule × List String :=
  match leaderSchedule.lookup id with
  | some leaderSlots => (acc.1.insert id (absoluteSlots leaderSlots epochFirstSlot), acc.2)
  | none => (acc.1, acc.2 ++ ["failed to find leader slots for " ++ id])

/-- `GetTrimmedLeaderSchedule` fetches the leader schedule, but only for the validators we
are interested in.  Additionally, it adjusts the leader schedule to the current epoch
offset. -/
def GetTrimmedLeaderSchedule {σ β : Type} (client : Provider σ β) (s : σ)
    (identities : List String) (slot epochFirstSlot : Int) : GoResult σ Schedule :=
  match client.GetLeaderSchedule s CommitmentConfirmed slot with
  | (.error err, s') =>
    { val := none, err := some (.wrapf "failed to get leader schedule: " err), log := [],
      state := s' }
  | (.ok leaderSchedule, s') =>
    let r := identities.foldl (trimStep leaderSchedule epochFirstSlot) ((∅ : Schedule), [])
    { val := some r.1, err := none, log := r.2, state := s' }

/-! ## `GetAssociatedVoteAccounts` -/

/-- The map nodekey -> votekey, filled by ranging over
`append(voteAccounts.Current, voteAccounts.Delinquent...)`. -/
def voteAccountsMap (voteAccounts : VoteAccounts) : GoMap String :=
  (voteAccounts.Current ++ voteAccounts.Delinquent).foldl
    (fun m voteAccount => m.insert voteAccount.NodePubkey voteAccount.VotePubkey)
    (∅ : GoMap String)

/-- Reading a `map[string]string`: the zero value `""` for a missing key. -/
def mapIndex (m : GoMap String) (key : String) : String :=
  (m.lookup key).getD ""

/-- The loop over `nodekeys`, with its early return; `votekeys` is the slice being filled. -/
def resolveLoop (m : GoMap String) :
    List (Nat × String) → List String → Option (List String) × Option GoError
  | [], votekeys => (some votekeys, none)
  | (i, nodeKey) :: rest, votekeys =>
    let votekey := mapIndex m nodeKey
    if votekey = "" then
      (none, some (.errorf ("failed to find vote key for node " ++ nodeKey)))
    else
      resolveLoop m rest (votekeys.set i votekey)

/-- `GetAssociatedVoteAccounts` returns the votekeys associated with a given list of
nodekeys. -/
def GetAssociatedVoteAccounts {σ β : Type} (client : Provider σ β) (s : σ)
    (commitment : Commitment) (nodekeys : List String) : GoResult σ (List String) :=
  match client.GetVoteAccounts s commitment none with
  | (.error err, s') => { val := none, err := some err, log := [], state := s' }
  | (.ok voteAccounts, s') =>
    let r := resolveLoop (voteAccountsMap voteAccounts) nodekeys.enum
      (List.replicate nodekeys.length "")
    { val := r.1, err := r.2, log := [], state := s' }

/-! ## `FetchBalances` -/

/-- The loop of `FetchBalances` over the addresses still to query. -/
def fetchLoop {σ β : Type} (client : Provider σ β) :
    List String → GoMap β → σ → GoResult σ (GoMap β)
  | [], balances, s => { val := some balances, err := none, log := [], state := s }
  | address :: rest, balances, s =>
    match client.GetBalance s CommitmentConfirmed address with
    | (.error err, s') => { val := none, err := some err, log := [], state := s' }
    | (.ok balance, s') => fetchLoop client rest (balances.insert address balance) s'

/-- `FetchBalances` fetches SOL balances for a list of addresses. -/
def FetchBalances {σ β : Type} (client : Provider σ β) (s : σ) (addresses : List String) :
    GoResult σ (GoMap β) :=
  fetchLoop client addresses (∅ : GoMap β) s

/-! ## `CombineUnique` -/

/-- The constraint `comparable` of Go: a type with the operator `==`.  The comparison
answers `some true` or `some false`, or `none` when it panics at run time, as it does for
two interface values whose common dynamic type is not comparable.  Nothing is assumed of
`==`: on `float64` it is not reflexive (`NaN != NaN`) and it equates the distinct values
`0` and `-0`. -/
class Comparable (T : Type) where
  eq : T → T → Option Bool

/-- The `==` of `string`: equality of the values; it never panics. -/
instance : Comparable String where
  eq := fun x y => some (decide (x = y))

/-- A `float64`, by its IEEE 754 bit pattern: sign bit, 11 exponent bits, 52 fraction
bits. -/
structure Float64 where
  bits : Nat
  deriving DecidableEq, Repr

/-- A `float64` is a NaN when its exponent bits are all ones and its fraction is not zero. -/
def Float64.isNaN (x : Float64) : Bool :=
  (x.bits / 2 ^ 52) % 2 ^ 11 == 2047 && x.bits % 2 ^ 52 != 0

/-- A `float64` is a zero, `0` or `-0`, when all its bits but the sign bit are zero. -/
def Float64.isZero (x : Float64) : Bool :=
  x.bits % 2 ^ 63 == 0

/-- The `==` of `float64`: a NaN is equal to nothing, the two zeros are equal, and any other
two values are equal when their bits are. -/
def Float64.goEq (x y : Float64) : Bool :=
  !x.isNaN && !y.isNaN && ((x.isZero && y.isZero) || x.bits == y.bits)

instance : Comparable Float64 where
  eq := fun x y => some (x.goEq y)

/-- Values of the interface type `any` with one of two dynamic types: `string`, which is
comparable, and `[]int`, which is not. -/
inductive AnyValue where
  | str (s : String)
  | ints (xs : List Int)
  deriving DecidableEq, Repr

/-- The `==` of interface values: values of different dynamic types are unequal, two strings
are compared as strings, and comparing two `[]int` values panics. -/
instance : Comparable AnyValue where
  eq := fun x y =>
    match x, y with
    | .str a, .str b => some (decide (a = b))
    | .ints _, .ints _ => none
    | _, _ => some false

/-- `slices.Contains(s, v)`: the first `i` with `v == s[i]` decides; `none` when a comparison
made on the way panics. -/
def Contains {T : Type} [Comparable T] : List T → T → Option Bool
  | [], _ => some false
  | x :: xs, v =>
    match Comparable.eq v x with
    | none => none
    | some true => some true
    | some false => Contains xs v

/-- The inner loop of `CombineUnique`, over the items of one argument, on the slice
`uniqueItems` built so far. -/
def combineItems {T : Type} [Comparable T] : List T → List T → Option (List T)
  | [], uniqueItems => some uniqueItems
  | item :: rest, uniqueItems =>
    match Contains uniqueItems item with
    | none => none
    | some true => combineItems rest uniqueItems
    | some false => combineItems rest (uniqueItems ++ [item])

/-- The outer loop of `CombineUnique`, over the arguments. -/
def combineArgs {T : Type} [Comparable T] : List (List T) → List T → Option (List T)
  | [], uniqueItems => some uniqueItems
  | arg :: args, uniqueItems =>
    match combineItems arg uniqueItems with
    | none => none
    | some uniqueItems' => combineArgs args uniqueItems'

/-- `CombineUnique` combines unique items from multiple arrays to a single array.  The
result is `none` when the call panics in a comparison. -/
def CombineUnique {T : Type} [Comparable T] (args : List (List T)) : Option (List T) :=
  combineArgs args []

/-! ## A query capability that records its calls -/

/-- A query made of the capability, with its arguments. -/
inductive Call where
  | getLeaderSchedule (commitment : Commitment) (slot : Int)
  | getVoteAccounts (commitment : Commitment) (votePubkey : Option String)
  | getBalance (commitment : Commitment) (address : String)
  deriving DecidableEq, Repr

/-- The capability `client` with a record of its calls: the state carries the list of the
queries made so far, oldest first; every query answers as `client` does. -/
def recording {σ β : Type} (client : Provider σ β) : Provider (σ × List Call) β where
  GetLeaderSchedule := fun st commitment slot =>
    ((client.GetLeaderSchedule st.1 commitment slot).1,
      ((client.GetLeaderSchedule st.1 commitment slot).2,
        st.2 ++ [Call.getLeaderSchedule commitment slot]))
  GetVoteAccounts := fun st commitment votePubkey =>
    ((client.GetVoteAccounts st.1 commitment votePubkey).1,
      ((client.GetVoteAccounts st.1 commitment votePubkey).2,
        st.2 ++ [Call.getVoteAccounts commitment votePubkey]))
  GetBalance := fun st commitment address =>
    ((client.GetBalance st.1 commitment address).1,
      ((client.GetBalance st.1 commitment address).2,
        st.2 ++ [Call.getBalance commitment address]))

/-! ## Reference functions of the specification -/

/-- The predicate of the range filter, `startSlot <= v && v <= endSlot`. -/
def inRange (startSlot endSlot : Int) (v : Int) : Bool :=
  decide (startSlot ≤ v) && decide (v ≤ endSlot)

/-- Keep-first deduplication, in the words of the specification of `CombineUnique`: each
distinct element once, at the place of its first occurrence. -/
def keepFirst {T : Type} [DecidableEq T] : List T → List T
  | [] => []
  | x :: xs => x :: (keepFirst xs).filter (fun y => decide (y ≠ x))

/-- The answers the capability gives when the addresses are queried one after the other
from state `s`, each query starting in the state the previous one left: the pairs of the
address asked and the answer. -/
def balanceAnswers {σ β : Type} (client : Provider σ β) :
    List String → σ → List (String × Except GoError β)
  | [], _ => []
  | address :: rest, s =>
    (address, (client.GetBalance s CommitmentConfirmed address).1) ::
      balanceAnswers client rest (client.GetBalance s CommitmentConfirmed address).2

/-- The answer to the last query made for `address` in a list of answers. -/
def lastAnswer {β : Type} (answers : List (String × Except GoError β)) (address : String) :
    Option (Except GoError β) :=
  answers.reverse.lookup address

/-- Equality of two Go maps: the same keys, with the same value at each key.  (A Go map
has no order; the association lists standing for it may list the keys differently.) -/
def sameMap {V : Type} (m₁ m₂ : GoMap V) : Prop :=
  ∀ k, m₁.lookup k = m₂.lookup k

/-- All slot values of a schedule, over all its sequences. -/
def allSlots (schedule : Schedule) : List Int :=
  (schedule.entries.map (fun kv => kv.2)).flatten

/-- The smallest slot value of a schedule, `minSlot(S)` (`0` for a schedule with no slot). -/
def minSlot (schedule : Schedule) : Int :=
  match allSlots schedule with
  | [] => 0
  | v :: vs => vs.foldl min v

/-- The largest slot value of a schedule, `maxSlot(S)` (`0` for a schedule with no slot). -/
def maxSlot (schedule : Schedule) : Int :=
  match allSlots schedule with
  | [] => 0
  | v :: vs => vs.foldl max v

/-- The addresses of a list of answers up to and including the first one whose answer is
an error; all of them when no answer is an error. -/
def queriedPrefix {β : Type} : List (String × Except GoError β) → List String
  | [] => []
  | (address, .ok _) :: rest => address :: queriedPrefix rest
  | (address, .error _) :: _ => [address]

/-- The vote identity of the last record for `node` in a list of vote-account records. -/
def lastVoteKey (records : List VoteAccount) (node : String) : Option String :=
  (records.reverse.find? (fun r => decide (r.NodePubkey = node))).map (fun r => r.VotePubkey)

/-! ## Concrete inputs -/

/-- A schedule with two validators, used to evaluate the functions. -/
def exampleSchedule : Schedule :=
  AList.insert "V1" [2, 5] (AList.singleton "V2" [10])

/-- A capability whose leader schedule is `exampleSchedule`; its other queries fail. -/
def exampleClient : Provider Unit Rat where
  GetLeaderSchedule := fun s _ _ => (.ok exampleSchedule, s)
  GetVoteAccounts := fun s _ _ => (.error (.foreign "unavailable"), s)
  GetBalance := fun s _ _ => (.error (.foreign "unavailable"), s)

/-- A capability whose leader schedule gives `V1` the largest `int64` as its slot index. -/
def overflowClient : Provider Unit Rat where
  GetLeaderSchedule := fun s _ _ => (.ok (AList.singleton "V1" [9223372036854775807]), s)
  GetVoteAccounts := fun s _ _ => (.error (.foreign "unavailable"), s)
  GetBalance := fun s _ _ => (.error (.foreign "unavailable"), s)

/-- A capability all of whose queries fail with the same error. -/
def failingClient : Provider Unit Rat where
  GetLeaderSchedule := fun s _ _ => (.error (.foreign "connection refused"), s)
  GetVoteAccounts := fun s _ _ => (.error (.foreign "connection refused"), s)
  GetBalance := fun s _ _ => (.error (.foreign "connection refused"), s)

/-- A vote-account snapshot: `N1` is current, `N2` delinquent, `N3` has an empty vote key. -/
def exampleVoteAccounts : VoteAccounts where
  Current := [{ NodePubkey := "N1", VotePubkey := "Vote1" },
    { NodePubkey := "N3", VotePubkey := "" }]
  Delinquent := [{ NodePubkey := "N2", VotePubkey := "Vote2" }]

/-- A capability whose vote accounts are `exampleVoteAccounts`; its other queries fail. -/
def voteClient : Provider Unit Rat where
  GetLeaderSchedule := fun s _ _ => (.error (.foreign "unavailable"), s)
  GetVoteAccounts := fun s _ _ => (.ok exampleVoteAccounts, s)
  GetBalance := fun s _ _ => (.error (.foreign "unavailable"), s)

/-- A capability that counts its queries: the first balance query answers `1.5`, every
later one fails. -/
def flakyClient : Provider Nat Rat where
  GetLeaderSchedule := fun n _ _ => (.error (.foreign "unavailable"), n + 1)
  GetVoteAccounts := fun n _ _ => (.error (.foreign "unavailable"), n + 1)
  GetBalance := fun n _ _ =>
    if n = 0 then (.ok 1.5, n + 1) else (.error (.foreign "timeout"), n + 1)

/-- A capability that counts its queries and answers the count as the balance. -/
def countingClient : Provider Nat Rat where
  GetLeaderSchedule := fun n _ _ => (.error (.foreign "unavailable"), n + 1)
  GetVoteAccounts := fun n _ _ => (.error (.foreign "unavailable"), n + 1)
  GetBalance := fun n _ _ => (.ok (n : Rat), n + 1)

/-- A vote-account snapshot in which `N1` is both current, voting with `VoteC`, and
delinquent, voting with `VoteD`. -/
def overlapVoteAccounts : VoteAccounts where
  Current := [{ NodePubkey := "N1", VotePubkey := "VoteC" },
    { NodePubkey := "N2", VotePubkey := "Vote2" }]
  Delinquent := [{ NodePubkey := "N1", VotePubkey := "VoteD" }]

/-- A capability whose vote accounts are `overlapVoteAccounts`; its other queries fail. -/
def overlapClient : Provider Unit Rat where
  GetLeaderSchedule := fun s _ _ => (.error (.foreign "unavailable"), s)
  GetVoteAccounts := fun s _ _ => (.ok overlapVoteAccounts, s)
  GetBalance := fun s _ _ => (.error (.foreign "unavailable"), s)

/-- A capability whose leader schedule is `exampleSchedule` restricted to the indices from
`0` to `3`; its other queries fail. -/
def selectedClient : Provider Unit Rat where
  GetLeaderSchedule := fun s _ _ =>
    (.ok (SelectFromSchedule exampleSchedule (sub64 1000 1000) (sub64 1003 1000)), s)
  GetVoteAccounts := fun s _ _ => (.error (.foreign "unavailable"), s)
  GetBalance := fun s _ _ => (.error (.foreign "unavailable"), s)

/-- The `float64` NaN with bits `0x7FF8000000000000`. -/
def nan64 : Float64 := ⟨0x7FF8000000000000⟩

/-- The `float64` value `1`. -/
def one64 : Float64 := ⟨0x3FF0000000000000⟩

/-- The `float64` value `0`. -/
def posZero64 : Float64 := ⟨0⟩

/-- The `float64` value `-0`, which differs from `0` in the sign bit. -/
def negZero64 : Float64 := ⟨0x8000000000000000⟩

/-! ## Lemmas on `SelectFromSchedule` -/

theorem selectValues_foldl (startSlot endSlot : Int) (values acc : List Int) :
    values.foldl
      (fun selectedValues value =>
        if value ≥ startSlot ∧ value ≤ endSlot then selectedValues ++ [value] else selectedValues)
      acc = acc ++ values.filter (inRange startSlot endSlot) := by
  induction values generalizing acc with
  | nil => simp
  | cons v vs ih =>
    rw [List.foldl_cons, ih]
    by_cases h : v ≥ startSlot ∧ v ≤ endSlot
    · have hr : inRange startSlot endSlot v = true := by
        simp [inRange, h.1, h.2]
      simp [h, List.filter_cons, hr]
    · have hr : inRange startSlot endSlot v = false := by
        simp only [inRange, Bool.and_eq_false_iff, decide_eq_false_iff_not]
        by_contra hc
        push_neg at hc
        exact h ⟨hc.1, hc.2⟩
      simp [h, List.filter_cons, hr]

theorem selectValues_eq_filter (values : List Int) (startSlot endSlot : Int) :
    selectValues values startSlot endSlot = values.filter (inRange startSlot endSlot) := by
  unfold selectValues
  rw [selectValues_foldl]
  simp


theorem lookup_select_foldl (startSlot endSlot : Int) (k : String) :
    ∀ (l : List (Sigma fun _ : String => List Int)) (acc : Schedule), l.NodupKeys →
      (l.foldl
        (fun selected kv => selected.insert kv.1 (selectValues kv.2 startSlot endSlot))
        acc).lookup k =
      match l.dlookup k with
      | some values => some (values.filter (inRange startSlot endSlot))
      | none => acc.lookup k := by
  intro l
  induction l with
  | nil => intro acc _; simp
  | cons kv l ih =>
    intro acc hl
    obtain ⟨k', values'⟩ := kv
    rw [List.nodupKeys_cons] at hl
    rw [List.foldl_cons, ih _ hl.2]
    by_cases hk : k = k'
    · subst hk
      have hnone : l.dlookup k = none := List.dlookup_eq_none.mpr hl.1
      rw [hnone, List.dlookup_cons_eq]
      simp [AList.lookup_insert, selectValues_eq_filter]
    · rw [List.dlookup_cons_ne l _ hk]
      cases hd : l.dlookup k with
      | some values => rfl
      | none => simp [AList.lookup_insert_ne hk]

theorem lookup_SelectFromSchedule (schedule : Schedule) (startSlot endSlot : Int) (k : String) :
    (SelectFromSchedule schedule startSlot endSlot).lookup k =
      (schedule.lookup k).map (List.filter (inRange startSlot endSlot)) := by
  unfold SelectFromSchedule
  rw [lookup_select_foldl startSlot endSlot k schedule.entries ∅ schedule.nodupKeys]
  change _ = (schedule.entries.dlookup k).map _
  cases schedule.entries.dlookup k with
  | some values => rfl
  | none => simp

theorem mem_SelectFromSchedule (schedule : Schedule) (startSlot endSlot : Int) (k : String) :
    k ∈ SelectFromSchedule schedule startSlot endSlot ↔ k ∈ schedule := by
  rw [← AList.lookup_isSome, ← AList.lookup_isSome, lookup_SelectFromSchedule]
  simp

theorem inRange_and (a b c d v : Int) :
    (inRange c d v && inRange a b v) = inRange (max a c) (min b d) v := by
  rw [Bool.eq_iff_iff]
  simp only [inRange, Bool.and_eq_true, decide_eq_true_eq]
  omega

theorem filter_inRange_filter (a b c d : Int) (values : List Int) :
    (values.filter (inRange a b)).filter (inRange c d) =
      values.filter (inRange (max a c) (min b d)) := by
  rw [List.filter_filter]
  exact List.filter_congr (fun v _ => inRange_and a b c d v)

theorem foldl_min_le (l : List Int) :
    ∀ a : Int, l.foldl min a ≤ a ∧ ∀ x ∈ l, l.foldl min a ≤ x := by
  induction l with
  | nil => intro a; simp
  | cons y ys ih =>
    intro a
    rw [List.foldl_cons]
    obtain ⟨h1, h2⟩ := ih (min a y)
    refine ⟨le_trans h1 (min_le_left a y), ?_⟩
    intro x hx
    rcases List.mem_cons.mp hx with rfl | hx'
    · exact le_trans h1 (min_le_right a x)
    · exact h2 x hx'

theorem le_foldl_max (l : List Int) :
    ∀ a : Int, a ≤ l.foldl max a ∧ ∀ x ∈ l, x ≤ l.foldl max a := by
  induction l with
  | nil => intro a; simp
  | cons y ys ih =>
    intro a
    rw [List.foldl_cons]
    obtain ⟨h1, h2⟩ := ih (max a y)
    refine ⟨le_trans (le_max_left a y) h1, ?_⟩
    intro x hx
    rcases List.mem_cons.mp hx with rfl | hx'
    · exact le_trans (le_max_right a x) h1
    · exact h2 x hx'

theorem minSlot_le (schedule : Schedule) (v : Int) (hv : v ∈ allSlots schedule) :
    minSlot schedule ≤ v := by
  unfold minSlot
  cases hall : allSlots schedule with
  | nil => rw [hall] at hv; simp at hv
  | cons w ws =>
    rw [hall] at hv
    rcases List.mem_cons.mp hv with rfl | hv'
    · exact (foldl_min_le ws v).1
    · exact (foldl_min_le ws w).2 v hv'

theorem le_maxSlot (schedule : Schedule) (v : Int) (hv : v ∈ allSlots schedule) :
    v ≤ maxSlot schedule := by
  unfold maxSlot
  cases hall : allSlots schedule with
  | nil => rw [hall] at hv; simp at hv
  | cons w ws =>
    rw [hall] at hv
    rcases List.mem_cons.mp hv with rfl | hv'
    · exact (le_foldl_max ws v).1
    · exact (le_foldl_max ws w).2 v hv'

theorem mem_allSlots_of_lookup (schedule : Schedule) (k : String) (values : List Int)
    (hk : schedule.lookup k = some values) (v : Int) (hv : v ∈ values) :
    v ∈ allSlots schedule := by
  have hmem : (⟨k, values⟩ : Sigma fun _ : String => List Int) ∈ schedule.entries :=
    AList.mem_lookup_iff.mp hk
  unfold allSlots
  rw [List.mem_flatten]
  exact ⟨values, List.mem_map.mpr ⟨_, hmem, rfl⟩, hv⟩

theorem sameMap_entries_perm {V : Type} (m₁ m₂ : GoMap V) (h : sameMap m₁ m₂) :
    m₁.entries.Perm m₂.entries := by
  apply List.lookup_ext m₁.nodupKeys m₂.nodupKeys
  intro k v
  have hk := h k
  unfold AList.lookup at hk
  rw [hk]

/-! ## Lemmas on `GetTrimmedLeaderSchedule` -/

theorem absoluteSlots_foldl (epochFirstSlot : Int) :
    ∀ (l : List Int) (n : Nat) (pre : List Int), pre.length = n →
      (l.enumFrom n).foldl
        (fun absoluteSlots p => absoluteSlots.set p.1 (add64 p.2 epochFirstSlot))
        (pre ++ List.replicate l.length 0) = pre ++ l.map (fun v => add64 v epochFirstSlot) := by
  intro l
  induction l with
  | nil => intro n pre _; simp
  | cons x xs ih =>
    intro n pre hn
    have hset : (pre ++ List.replicate (x :: xs).length (0 : Int)).set n (add64 x epochFirstSlot) =
        (pre ++ [add64 x epochFirstSlot]) ++ List.replicate xs.length 0 := by
      subst hn
      simp [List.replicate_succ]
    rw [List.enumFrom_cons, List.foldl_cons, hset, ih (n + 1) _ (by simp [hn])]
    simp

theorem absoluteSlots_eq_map (leaderSlots : List Int) (epochFirstSlot : Int) :
    absoluteSlots leaderSlots epochFirstSlot =
      leaderSlots.map (fun v => add64 v epochFirstSlot) := by
  have h := absoluteSlots_foldl epochFirstSlot leaderSlots 0 [] rfl
  simpa [absoluteSlots, List.enum] using h

theorem wrapInt64_of_isInt64 (i : Int) (h : IsInt64 i) : wrapInt64 i = i := by
  unfold IsInt64 minInt64 maxInt64 at h
  unfold wrapInt64
  rw [Int.emod_eq_of_lt (by omega) (by omega)]
  omega

theorem lookup_trim_foldl (leaderSchedule : Schedule) (epochFirstSlot : Int) (k : String) :
    ∀ (identities : List String) (acc : Schedule × List String),
      ((identities.foldl (trimStep leaderSchedule epochFirstSlot) acc).1).lookup k =
        if k ∈ identities then
          match leaderSchedule.lookup k with
          | some leaderSlots => some (absoluteSlots leaderSlots epochFirstSlot)
          | none => acc.1.lookup k
        else acc.1.lookup k := by
  intro identities
  induction identities with
  | nil => intro acc; simp
  | cons id ids ih =>
    intro acc
    rw [List.foldl_cons, ih]
    by_cases hk : k = id
    · subst hk
      cases hl : leaderSchedule.lookup k with
      | some leaderSlots => simp [trimStep, hl, AList.lookup_insert]
      | none => simp [trimStep, hl]
    · have hacc : (trimStep leaderSchedule epochFirstSlot acc id).1.lookup k = acc.1.lookup k := by
        unfold trimStep
        cases leaderSchedule.lookup id with
        | some leaderSlots => simp [AList.lookup_insert_ne hk]
        | none => rfl
      simp [hacc, hk]

theorem lookup_trimmed (leaderSchedule : Schedule) (epochFirstSlot : Int)
    (identities : List String) (k : String) :
    ((identities.foldl (trimStep leaderSchedule epochFirstSlot)
      ((∅ : Schedule), [])).1).lookup k =
      if k ∈ identities then
        (leaderSchedule.lookup k).map (fun leaderSlots =>
          leaderSlots.map (fun v => add64 v epochFirstSlot))
      else none := by
  rw [lookup_trim_foldl]
  by_cases hk : k ∈ identities
  · simp only [hk, if_true]
    cases leaderSchedule.lookup k with
    | some leaderSlots => simp [absoluteSlots_eq_map]
    | none => simp
  · simp [hk]

theorem val_GetTrimmedLeaderSchedule {σ β : Type} (client : Provider σ β) (s s' : σ)
    (identities : List String) (slot epochFirstSlot : Int) (raw : Schedule)
    (hquery : client.GetLeaderSchedule s CommitmentConfirmed slot = (.ok raw, s')) :
    (GetTrimmedLeaderSchedule client s identities slot epochFirstSlot).val =
      some (identities.foldl (trimStep raw epochFirstSlot) ((∅ : Schedule), [])).1 ∧
    (GetTrimmedLeaderSchedule client s identities slot epochFirstSlot).err = none := by
  simp only [GetTrimmedLeaderSchedule, hquery, and_self]

theorem filter_offset (a b epochFirstSlot : Int) :
    ∀ l : List Int, (∀ v ∈ l, IsInt64 (v + epochFirstSlot)) →
      (l.map (fun v => add64 v epochFirstSlot)).filter (inRange a b) =
        (l.filter (inRange (a - epochFirstSlot) (b - epochFirstSlot))).map
          (fun v => add64 v epochFirstSlot) := by
  intro l
  induction l with
  | nil => intro _; rfl
  | cons x xs ih =>
    intro hl
    have hx : add64 x epochFirstSlot = x + epochFirstSlot :=
      wrapInt64_of_isInt64 _ (hl x (List.mem_cons_self _ _))
    have hp : inRange a b (add64 x epochFirstSlot) =
        inRange (a - epochFirstSlot) (b - epochFirstSlot) x := by
      rw [hx, Bool.eq_iff_iff]
      simp only [inRange, Bool.and_eq_true, decide_eq_true_eq]
      omega
    have ih' := ih (fun v hv => hl v (List.mem_cons_of_mem _ hv))
    rw [List.map_cons, List.filter_cons, List.filter_cons, hp, ih']
    cases inRange (a - epochFirstSlot) (b - epochFirstSlot) x with
    | true => simp
    | false => simp

/-! ## Lemmas on `GetAssociatedVoteAccounts` -/

theorem mapIndex_eq_empty_iff (m : GoMap String) (key : String) :
    mapIndex m key = "" ↔ m.lookup key = none ∨ m.lookup key = some "" := by
  unfold mapIndex
  cases m.lookup key with
  | none => simp
  | some v => simp

theorem mapIndex_of_lookup (m : GoMap String) (key v : String) (h : m.lookup key = some v) :
    mapIndex m key = v := by
  simp [mapIndex, h]

theorem resolveLoop_ok (m : GoMap String) :
    ∀ (l : List String) (n : Nat) (pre : List String), pre.length = n →
      (∀ k ∈ l, mapIndex m k ≠ "") →
      resolveLoop m (l.enumFrom n) (pre ++ List.replicate l.length "") =
        (some (pre ++ l.map (mapIndex m)), none) := by
  intro l
  induction l with
  | nil => intro n pre _ _; simp [resolveLoop]
  | cons x xs ih =>
    intro n pre hn hall
    have hx : mapIndex m x ≠ "" := hall x (List.mem_cons_self _ _)
    have hset : (pre ++ List.replicate (x :: xs).length "").set n (mapIndex m x) =
        (pre ++ [mapIndex m x]) ++ List.replicate xs.length "" := by
      subst hn
      simp [List.replicate_succ]
    rw [List.enumFrom_cons, resolveLoop]
    simp only [hx, if_false]
    rw [hset, ih (n + 1) _ (by simp [hn]) (fun k hk => hall k (List.mem_cons_of_mem _ hk))]
    simp

theorem resolveLoop_fail (m : GoMap String) :
    ∀ (l : List String) (n : Nat) (votekeys : List String),
      (∃ k ∈ l, mapIndex m k = "") →
      ∃ pre k post, l = pre ++ k :: post ∧ (∀ k' ∈ pre, mapIndex m k' ≠ "") ∧
        mapIndex m k = "" ∧
        resolveLoop m (l.enumFrom n) votekeys =
          (none, some (.errorf ("failed to find vote key for node " ++ k))) := by
  intro l
  induction l with
  | nil => intro n votekeys h; simp at h
  | cons x xs ih =>
    intro n votekeys h
    by_cases hx : mapIndex m x = ""
    · refine ⟨[], x, xs, rfl, by simp, hx, ?_⟩
      rw [List.enumFrom_cons, resolveLoop]
      simp [hx]
    · have hxs : ∃ k ∈ xs, mapIndex m k = "" := by
        obtain ⟨k, hk, hkm⟩ := h
        rcases List.mem_cons.mp hk with rfl | hk'
        · exact absurd hkm hx
        · exact ⟨k, hk', hkm⟩
      obtain ⟨pre, k, post, hl, hpre, hk, hres⟩ := ih (n + 1) (votekeys.set n (mapIndex m x)) hxs
      refine ⟨x :: pre, k, post, by simp [hl], ?_, hk, ?_⟩
      · intro k' hk'
        rcases List.mem_cons.mp hk' with rfl | hk''
        · exact hx
        · exact hpre k' hk''
      · rw [List.enumFrom_cons, resolveLoop]
        simp only [hx, if_false]
        exact hres

theorem lastVoteKey_cons (r : VoteAccount) (records : List VoteAccount) (node : String) :
    lastVoteKey (r :: records) node =
      match lastVoteKey records node with
      | some v => some v
      | none => if r.NodePubkey = node then some r.VotePubkey else none := by
  unfold lastVoteKey
  rw [List.reverse_cons, List.find?_append]
  cases records.reverse.find? (fun r => decide (r.NodePubkey = node)) with
  | some r' => rfl
  | none =>
    by_cases h : r.NodePubkey = node
    · simp [List.find?, h]
    · simp [List.find?, h]

theorem lastVoteKey_append (l₁ l₂ : List VoteAccount) (node : String) :
    lastVoteKey (l₁ ++ l₂) node =
      match lastVoteKey l₂ node with
      | some v => some v
      | none => lastVoteKey l₁ node := by
  unfold lastVoteKey
  rw [List.reverse_append, List.find?_append]
  cases l₂.reverse.find? (fun r => decide (r.NodePubkey = node)) with
  | some r' => rfl
  | none => rfl

theorem lastVoteKey_isSome_iff (records : List VoteAccount) (node : String) :
    (lastVoteKey records node).isSome = true ↔ ∃ r ∈ records, r.NodePubkey = node := by
  unfold lastVoteKey
  rw [Option.isSome_map', List.find?_isSome]
  simp

theorem lookup_vote_foldl (node : String) :
    ∀ (records : List VoteAccount) (acc : GoMap String),
      (records.foldl
        (fun m voteAccount => m.insert voteAccount.NodePubkey voteAccount.VotePubkey)
        acc).lookup node =
      match lastVoteKey records node with
      | some v => some v
      | none => acc.lookup node := by
  intro records
  induction records with
  | nil => intro acc; simp [lastVoteKey]
  | cons r rest ih =>
    intro acc
    rw [List.foldl_cons, ih, lastVoteKey_cons]
    cases lastVoteKey rest node with
    | some v => rfl
    | none =>
      by_cases h : r.NodePubkey = node
      · subst h
        simp [AList.lookup_insert]
      · have hne : node ≠ r.NodePubkey := fun h' => h h'.symm
        simp [h, AList.lookup_insert_ne hne]

theorem lookup_voteAccountsMap (voteAccounts : VoteAccounts) (node : String) :
    (voteAccountsMap voteAccounts).lookup node =
      lastVoteKey (voteAccounts.Current ++ voteAccounts.Delinquent) node := by
  unfold voteAccountsMap
  rw [lookup_vote_foldl]
  cases lastVoteKey (voteAccounts.Current ++ voteAccounts.Delinquent) node with
  | some v => rfl
  | none => simp

/-! ## Lemmas on `CombineUnique` -/

section CombineUnique

variable {T : Type} [DecidableEq T]

theorem mem_keepFirst (x : T) : ∀ l : List T, x ∈ keepFirst l ↔ x ∈ l := by
  intro l
  induction l with
  | nil => simp [keepFirst]
  | cons a l ih =>
    by_cases hx : x = a
    · simp [keepFirst, hx]
    · simp [keepFirst, hx, ih, List.mem_filter]

theorem nodup_keepFirst : ∀ l : List T, (keepFirst l).Nodup := by
  intro l
  induction l with
  | nil => simp [keepFirst]
  | cons a l ih =>
    rw [keepFirst, List.nodup_cons]
    exact ⟨by simp [List.mem_filter], ih.filter _⟩

theorem indexOf_filter_lt (p : T → Bool) (x y : T) (hx : p x = true) (hy : p y = true) :
    ∀ l : List T,
      ((l.filter p).indexOf x < (l.filter p).indexOf y ↔ l.indexOf x < l.indexOf y) := by
  intro l
  induction l with
  | nil => simp
  | cons b l ih =>
    by_cases hb : p b = true
    · rw [List.filter_cons_of_pos hb]
      by_cases hbx : b = x
      · by_cases hby : b = y
        · subst hbx; subst hby; simp
        · subst hbx
          rw [List.indexOf_cons_self, List.indexOf_cons_self, List.indexOf_cons_ne _ hby,
            List.indexOf_cons_ne _ hby]
          simp
      · by_cases hby : b = y
        · subst hby
          rw [List.indexOf_cons_self, List.indexOf_cons_self]
          simp
        · rw [List.indexOf_cons_ne _ hbx, List.indexOf_cons_ne _ hby,
            List.indexOf_cons_ne _ hbx, List.indexOf_cons_ne _ hby]
          simpa using ih
    · have hbx : b ≠ x := fun h => hb (h ▸ hx)
      have hby : b ≠ y := fun h => hb (h ▸ hy)
      rw [List.filter_cons_of_neg hb, List.indexOf_cons_ne _ hbx, List.indexOf_cons_ne _ hby]
      simpa using ih

theorem indexOf_keepFirst_lt (x y : T) :
    ∀ l : List T,
      ((keepFirst l).indexOf x < (keepFirst l).indexOf y ↔ l.indexOf x < l.indexOf y) := by
  intro l
  induction l with
  | nil => simp [keepFirst]
  | cons a l ih =>
    rw [keepFirst]
    by_cases hax : a = x
    · by_cases hay : a = y
      · subst hax; subst hay; simp
      · subst hax
        rw [List.indexOf_cons_self, List.indexOf_cons_self, List.indexOf_cons_ne _ hay,
          List.indexOf_cons_ne _ hay]
        simp
    · by_cases hay : a = y
      · subst hay
        rw [List.indexOf_cons_self, List.indexOf_cons_self]
        simp
      · rw [List.indexOf_cons_ne _ hax, List.indexOf_cons_ne _ hay,
          List.indexOf_cons_ne _ hax, List.indexOf_cons_ne _ hay]
        have hf := indexOf_filter_lt (fun z => decide (z ≠ a)) x y
          (by simpa using Ne.symm hax) (by simpa using Ne.symm hay) (keepFirst l)
        rw [Nat.succ_lt_succ_iff, Nat.succ_lt_succ_iff, hf, ih]

end CombineUnique

/-! ### The loops of `CombineUnique`, for any `==` -/

section Comparable

variable {T : Type} [Comparable T]

theorem Contains_eq_false_iff (v : T) :
    ∀ u : List T, Contains u v = some false ↔ ∀ y ∈ u, Comparable.eq v y = some false := by
  intro u
  induction u with
  | nil => simp [Contains]
  | cons x xs ih =>
    rw [Contains]
    cases hx : Comparable.eq v x with
    | none => simp [hx]
    | some c =>
      cases c with
      | true => simp [hx]
      | false => simp [hx, ih]

theorem combineItems_append (l₂ : List T) :
    ∀ (l₁ acc : List T),
      combineItems (l₁ ++ l₂) acc = (combineItems l₁ acc).bind (combineItems l₂) := by
  intro l₁
  induction l₁ with
  | nil => intro acc; simp [combineItems]
  | cons item rest ih =>
    intro acc
    rw [List.cons_append, combineItems, combineItems]
    cases hc : Contains acc item with
    | none => rfl
    | some c =>
      cases c with
      | true => exact ih acc
      | false => exact ih (acc ++ [item])

theorem combineArgs_eq_combineItems :
    ∀ (args : List (List T)) (u : List T),
      combineArgs args u = combineItems args.flatten u := by
  intro args
  induction args with
  | nil => intro u; simp [combineArgs, combineItems]
  | cons arg args ih =>
    intro u
    rw [combineArgs, List.flatten_cons, combineItems_append]
    cases hc : combineItems arg u with
    | none => rfl
    | some u' => exact ih u'

theorem combineArgs_singleton (xs u : List T) :
    combineArgs [xs] u = combineItems xs u := by
  rw [combineArgs_eq_combineItems]
  simp

theorem combineItems_settled :
    ∀ (l u u' : List T), combineItems u [] = some u → combineItems l u = some u' →
      combineItems u' [] = some u' := by
  intro l
  induction l with
  | nil =>
    intro u u' hu h
    rw [combineItems] at h
    cases h
    exact hu
  | cons item rest ih =>
    intro u u' hu h
    rw [combineItems] at h
    cases hc : Contains u item with
    | none => rw [hc] at h; simp at h
    | some c =>
      rw [hc] at h
      cases c with
      | true => exact ih u u' hu h
      | false =>
        apply ih (u ++ [item]) u' _ h
        rw [combineItems_append, hu]
        simp [combineItems, hc]

theorem combineItems_pairwise :
    ∀ (xs u : List T), (∀ x ∈ xs, ∀ y ∈ u, Comparable.eq x y = some false) →
      xs.Pairwise (fun y x => Comparable.eq x y = some false) →
      combineItems xs u = some (u ++ xs) := by
  intro xs
  induction xs with
  | nil => intro u _ _; simp [combineItems]
  | cons x xs ih =>
    intro u hu hp
    rw [List.pairwise_cons] at hp
    have hc : Contains u x = some false :=
      (Contains_eq_false_iff x u).mpr (hu x (List.mem_cons_self _ _))
    rw [combineItems, hc]
    simp only
    rw [ih (u ++ [x]) ?_ hp.2]
    · simp
    · intro x' hx' y hy
      rcases List.mem_append.mp hy with hy' | hy'
      · exact hu x' (List.mem_cons_of_mem _ hx') y hy'
      · rw [List.mem_singleton] at hy'
        subst hy'
        exact hp.1 x' hx'

end Comparable

/-! ### The loops of `CombineUnique`, when `==` is the equality of the values -/

section Lawful

variable {T : Type} [Comparable T] [DecidableEq T]

theorem Contains_of_lawful (hlaw : ∀ x y : T, Comparable.eq x y = some (decide (x = y)))
    (v : T) : ∀ u : List T, Contains u v = some (decide (v ∈ u)) := by
  intro u
  induction u with
  | nil => simp [Contains]
  | cons x xs ih =>
    rw [Contains, hlaw v x]
    by_cases h : v = x
    · simp [h]
    · simp [h, ih]

theorem combineItems_of_lawful (hlaw : ∀ x y : T, Comparable.eq x y = some (decide (x = y)))
    (l : List T) :
    ∀ u : List T,
      combineItems l u = some (u ++ (keepFirst l).filter (fun y => decide (y ∉ u))) := by
  induction l with
  | nil => intro u; simp [combineItems, keepFirst]
  | cons a l ih =>
    intro u
    rw [combineItems, Contains_of_lawful hlaw a u, keepFirst]
    by_cases ha : a ∈ u
    · simp only [ha, decide_True]
      rw [ih u, List.filter_cons, List.filter_filter]
      simp only [ha, not_true_eq_false, decide_False, Bool.false_eq_true, if_false]
      congr 2
      apply List.filter_congr
      intro y _
      by_cases hy : y ∈ u
      · simp [hy]
      · have hya : y ≠ a := fun h => hy (h ▸ ha)
        simp [hy, hya]
    · simp only [ha, decide_False]
      rw [ih (u ++ [a]), List.filter_cons, List.filter_filter]
      simp only [ha, not_false_eq_true, decide_True, if_true, List.append_assoc,
        List.singleton_append]
      congr 3
      apply List.filter_congr
      intro y _
      by_cases hy : y ∈ u
      · simp [hy]
      · by_cases hya : y = a
        · simp [hya]
        · simp [hy, hya]

theorem CombineUnique_eq_keepFirst
    (hlaw : ∀ x y : T, Comparable.eq x y = some (decide (x = y))) (args : List (List T)) :
    CombineUnique args = some (keepFirst args.flatten) := by
  unfold CombineUnique
  rw [combineArgs_eq_combineItems, combineItems_of_lawful hlaw]
  simp

theorem pairwise_of_nodup (hlaw : ∀ x y : T, Comparable.eq x y = some (decide (x = y)))
    (xs : List T) (h : xs.Nodup) :
    xs.Pairwise (fun y x => Comparable.eq x y = some false) := by
  unfold List.Nodup at h
  refine h.imp ?_
  intro a b hab
  rw [hlaw b a]
  have hba : b ≠ a := fun h' => hab h'.symm
  simp [hba]

end Lawful

/-! ## Lemmas on `FetchBalances` -/

section FetchBalances

variable {σ β : Type}

theorem balanceAnswers_keys (client : Provider σ β) :
    ∀ (addresses : List String) (s : σ),
      (balanceAnswers client addresses s).map Prod.fst = addresses := by
  intro addresses
  induction addresses with
  | nil => intro s; rfl
  | cons a rest ih => intro s; simp [balanceAnswers, ih]

theorem mem_of_lastAnswer (answers : List (String × Except GoError β)) (address : String)
    (r : Except GoError β) (h : lastAnswer answers address = some r) :
    (address, r) ∈ answers := by
  unfold lastAnswer at h
  obtain ⟨l₁, l₂, hl, _⟩ := List.lookup_eq_some_iff.mp h
  have hmem : (address, r) ∈ answers.reverse := by
    rw [hl]
    simp
  exact List.mem_reverse.mp hmem

theorem lastAnswer_cons (a : String) (r : Except GoError β)
    (answers : List (String × Except GoError β)) (address : String) :
    lastAnswer ((a, r) :: answers) address =
      match lastAnswer answers address with
      | some r' => some r'
      | none => if address = a then some r else none := by
  unfold lastAnswer
  rw [List.reverse_cons, List.lookup_append]
  cases answers.reverse.lookup address with
  | some r' => rfl
  | none =>
    by_cases h : address = a
    · simp [List.lookup, h]
    · have hne : (address == a) = false := by simpa using h
      simp [List.lookup, h, hne]

theorem fetchLoop_ok (client : Provider σ β) :
    ∀ (addresses : List String) (balances : GoMap β) (s : σ),
      (∀ p ∈ balanceAnswers client addresses s, ∃ b, p.2 = .ok b) →
      ∃ m, (fetchLoop client addresses balances s).val = some m ∧
        (fetchLoop client addresses balances s).err = none ∧
        ∀ a, m.lookup a =
          match lastAnswer (balanceAnswers client addresses s) a with
          | some (.ok b) => some b
          | _ => balances.lookup a := by
  intro addresses
  induction addresses with
  | nil =>
    intro balances s _
    exact ⟨balances, rfl, rfl, fun a => by simp [balanceAnswers, lastAnswer]⟩
  | cons x rest ih =>
    intro balances s hall
    obtain ⟨b, hb⟩ := hall (x, (client.GetBalance s CommitmentConfirmed x).1)
      (by simp [balanceAnswers])
    rcases hq : client.GetBalance s CommitmentConfirmed x with ⟨r, s'⟩
    rw [hq] at hb
    simp only at hb
    subst hb
    have hrest : ∀ p ∈ balanceAnswers client rest s', ∃ b, p.2 = .ok b := by
      intro p hp
      apply hall p
      simp [balanceAnswers, hq, hp]
    obtain ⟨m, hval, herr, hlook⟩ := ih (balances.insert x b) s' hrest
    refine ⟨m, ?_, ?_, ?_⟩
    · simp only [fetchLoop, hq]
      exact hval
    · simp only [fetchLoop, hq]
      exact herr
    · intro a
      rw [hlook a]
      simp only [balanceAnswers, hq]
      rw [lastAnswer_cons]
      cases hla : lastAnswer (balanceAnswers client rest s') a with
      | some r' =>
        cases r' with
        | ok b' => rfl
        | error e =>
          obtain ⟨b', hb'⟩ := hrest (a, .error e) (mem_of_lastAnswer _ _ _ hla)
          simp at hb'
      | none =>
        by_cases hax : a = x
        · subst hax
          simp [AList.lookup_insert]
        · simp [hax, AList.lookup_insert_ne hax]

theorem fetchLoop_fail (client : Provider σ β) :
    ∀ (addresses : List String) (balances : GoMap β) (s : σ),
      (∃ p ∈ balanceAnswers client addresses s, ∃ e, p.2 = .error e) →
      ∃ answered a e later,
        balanceAnswers client addresses s = answered ++ (a, .error e) :: later ∧
        (∀ p ∈ answered, ∃ b, p.2 = .ok b) ∧
        (fetchLoop client addresses balances s).val = none ∧
        (fetchLoop client addresses balances s).err = some e := by
  intro addresses
  induction addresses with
  | nil => intro balances s h; simp [balanceAnswers] at h
  | cons x rest ih =>
    intro balances s h
    rcases hq : client.GetBalance s CommitmentConfirmed x with ⟨r, s'⟩
    cases r with
    | error e =>
      refine ⟨[], x, e, balanceAnswers client rest s', ?_, by simp, ?_, ?_⟩
      · simp [balanceAnswers, hq]
      · simp only [fetchLoop, hq]
      · simp only [fetchLoop, hq]
    | ok b =>
      have hrest : ∃ p ∈ balanceAnswers client rest s', ∃ e, p.2 = .error e := by
        obtain ⟨p, hp, e, he⟩ := h
        simp only [balanceAnswers, hq, List.mem_cons] at hp
        rcases hp with rfl | hp
        · simp at he
        · exact ⟨p, hp, e, he⟩
      obtain ⟨answered, a, e, later, hans, hok, hval, herr⟩ :=
        ih (balances.insert x b) s' hrest
      refine ⟨(x, .ok b) :: answered, a, e, later, ?_, ?_, ?_, ?_⟩
      · simp [balanceAnswers, hq, hans]
      · intro p hp
        rcases List.mem_cons.mp hp with rfl | hp'
        · exact ⟨b, rfl⟩
        · exact hok p hp'
      · simp only [fetchLoop, hq]
        exact hval
      · simp only [fetchLoop, hq]
        exact herr

theorem lastAnswer_isSome_iff (answers : List (String × Except GoError β)) (address : String) :
    (lastAnswer answers address).isSome = true ↔ address ∈ answers.map Prod.fst := by
  unfold lastAnswer
  rw [List.lookup_isSome_iff]
  simp only [List.mem_reverse, beq_iff_eq, List.mem_map]
  constructor
  · rintro ⟨p, hp, rfl⟩
    exact ⟨p, hp, rfl⟩
  · rintro ⟨p, hp, rfl⟩
    exact ⟨p, hp, rfl⟩

theorem queriedPrefix_of_ok :
    ∀ answers : List (String × Except GoError β), (∀ p ∈ answers, ∃ b, p.2 = .ok b) →
      queriedPrefix answers = answers.map Prod.fst := by
  intro answers
  induction answers with
  | nil => intro _; rfl
  | cons p rest ih =>
    intro h
    obtain ⟨a, r⟩ := p
    obtain ⟨b, hb⟩ := h (a, r) (List.mem_cons_self _ _)
    simp only at hb
    subst hb
    simp [queriedPrefix, ih (fun q hq => h q (List.mem_cons_of_mem _ hq))]

theorem queriedPrefix_of_first_error (a : String) (e : GoError)
    (later : List (String × Except GoError β)) :
    ∀ answered : List (String × Except GoError β), (∀ p ∈ answered, ∃ b, p.2 = .ok b) →
      queriedPrefix (answered ++ (a, .error e) :: later) = answered.map Prod.fst ++ [a] := by
  intro answered
  induction answered with
  | nil => intro _; rfl
  | cons p rest ih =>
    intro h
    obtain ⟨a', r⟩ := p
    obtain ⟨b, hb⟩ := h (a', r) (List.mem_cons_self _ _)
    simp only at hb
    subst hb
    simp [queriedPrefix, ih (fun q hq => h q (List.mem_cons_of_mem _ hq))]

theorem fetchLoop_first_error (client : Provider σ β) (a : String) (e : GoError)
    (later : List (String × Except GoError β)) :
    ∀ (answered : List (String × Except GoError β)) (addresses : List String)
      (balances : GoMap β) (s : σ),
      balanceAnswers client addresses s = answered ++ (a, .error e) :: later →
      (∀ p ∈ answered, ∃ b, p.2 = .ok b) →
      (fetchLoop client addresses balances s).val = none ∧
      (fetchLoop client addresses balances s).err = some e := by
  intro answered
  induction answered with
  | nil =>
    intro addresses balances s hans _
    cases addresses with
    | nil => simp [balanceAnswers] at hans
    | cons x rest =>
      rcases hq : client.GetBalance s CommitmentConfirmed x with ⟨r, s'⟩
      simp only [balanceAnswers, hq, List.nil_append, List.cons.injEq, Prod.mk.injEq] at hans
      obtain ⟨⟨_, hr⟩, _⟩ := hans
      subst hr
      simp only [fetchLoop, hq, and_self]
  | cons p answered ih =>
    intro addresses balances s hans hok
    cases addresses with
    | nil => simp [balanceAnswers] at hans
    | cons x rest =>
      rcases hq : client.GetBalance s CommitmentConfirmed x with ⟨r, s'⟩
      simp only [balanceAnswers, hq, List.cons_append, List.cons.injEq] at hans
      obtain ⟨hp, hrest⟩ := hans
      obtain ⟨b, hb⟩ := hok p (List.mem_cons_self _ _)
      rw [← hp] at hb
      simp only at hb
      subst hb
      simp only [fetchLoop, hq]
      exact ih rest _ s' hrest (fun q hq' => hok q (List.mem_cons_of_mem _ hq'))

theorem fetchLoop_recording (client : Provider σ β) :
    ∀ (addresses : List String) (balances : GoMap β) (s : σ) (calls : List Call),
      (fetchLoop (recording client) addresses balances (s, calls)).val =
        (fetchLoop client addresses balances s).val ∧
      (fetchLoop (recording client) addresses balances (s, calls)).err =
        (fetchLoop client addresses balances s).err ∧
      (fetchLoop (recording client) addresses balances (s, calls)).state.2 =
        calls ++ (queriedPrefix (balanceAnswers client addresses s)).map
          (Call.getBalance CommitmentConfirmed) := by
  intro addresses
  induction addresses with
  | nil => intro balances s calls; simp [fetchLoop, balanceAnswers, queriedPrefix]
  | cons x rest ih =>
    intro balances s calls
    rcases hq : client.GetBalance s CommitmentConfirmed x with ⟨r, s'⟩
    have hrec : (recording client).GetBalance (s, calls) CommitmentConfirmed x =
        (r, (s', calls ++ [Call.getBalance CommitmentConfirmed x])) := by
      simp [recording, hq]
    cases r with
    | error e =>
      simp [fetchLoop, hq, hrec, balanceAnswers, queriedPrefix]
    | ok b =>
      obtain ⟨h1, h2, h3⟩ := ih (balances.insert x b) s'
        (calls ++ [Call.getBalance CommitmentConfirmed x])
      simp only [fetchLoop, hq, hrec, balanceAnswers, queriedPrefix]
      refine ⟨h1, h2, ?_⟩
      rw [h3]
      simp

end FetchBalances

/-! ## C1, C10: the range selector -/

/-- C1: `SelectFromSchedule schedule startSlot endSlot` has exactly the keys of `schedule`;
at every key its sequence is the input sequence filtered by
`startSlot ≤ v ∧ v ≤ endSlot`, the surviving values in their original order; and a key none
of whose values is in range is kept and maps to the empty sequence. -/
theorem SelectFromSchedule_filter (schedule : Schedule) (startSlot endSlot : Int) :
    (∀ k, k ∈ SelectFromSchedule schedule startSlot endSlot ↔ k ∈ schedule) ∧
    (∀ k, (SelectFromSchedule schedule startSlot endSlot).lookup k =
      (schedule.lookup k).map
        (List.filter (fun v => decide (startSlot ≤ v ∧ v ≤ endSlot)))) ∧
    (∀ k values, schedule.lookup k = some values →
      (∀ v ∈ values, ¬ (startSlot ≤ v ∧ v ≤ endSlot)) →
      (SelectFromSchedule schedule startSlot endSlot).lookup k = some []) := by
  have hfun : (fun v : Int => decide (startSlot ≤ v ∧ v ≤ endSlot)) = inRange startSlot endSlot := by
    funext v
    simp [inRange, Bool.decide_and]
  refine ⟨mem_SelectFromSchedule schedule startSlot endSlot, ?_, ?_⟩
  · intro k
    rw [lookup_SelectFromSchedule, hfun]
  · intro k values hk hout
    rw [lookup_SelectFromSchedule, hk, Option.map_some', List.filter_eq_nil_iff.mpr]
    intro v hv
    have := hout v hv
    simpa [inRange] using this

/-- C1 at a schedule in which `V1` has no slot in the range `[3, 4]`: the key stays. -/
theorem SelectFromSchedule_filter_witness :
    (SelectFromSchedule exampleSchedule 3 4).lookup "V1" = some [] :=
  (SelectFromSchedule_filter exampleSchedule 3 4).2.2 "V1" [2, 5] (by decide) (by decide)

/-- C10: for a reversed range, `endSlot < startSlot`, `SelectFromSchedule` returns a schedule
with exactly the keys of the input, each mapped to the empty sequence. -/
theorem SelectFromSchedule_reversed (schedule : Schedule) (startSlot endSlot : Int)
    (h : endSlot < startSlot) :
    (∀ k, k ∈ SelectFromSchedule schedule startSlot endSlot ↔ k ∈ schedule) ∧
    (∀ k, k ∈ schedule →
      (SelectFromSchedule schedule startSlot endSlot).lookup k = some []) := by
  refine ⟨mem_SelectFromSchedule schedule startSlot endSlot, ?_⟩
  intro k hk
  rw [← AList.lookup_isSome, Option.isSome_iff_exists] at hk
  obtain ⟨values, hv⟩ := hk
  rw [lookup_SelectFromSchedule, hv, Option.map_some', List.filter_eq_nil_iff.mpr]
  intro v _
  simp only [inRange, Bool.and_eq_true, decide_eq_true_eq, not_and, not_le]
  intro h1
  omega

/-- C10 at the range `[7, 3]`: both validators are kept, with no slot. -/
theorem SelectFromSchedule_reversed_witness :
    (7 : Int) > 3 ∧ (SelectFromSchedule exampleSchedule 7 3).lookup "V1" = some [] ∧
      (SelectFromSchedule exampleSchedule 7 3).lookup "V2" = some [] :=
  ⟨by decide,
    (SelectFromSchedule_reversed exampleSchedule 7 3 (by decide)).2 "V1" (by decide),
    (SelectFromSchedule_reversed exampleSchedule 7 3 (by decide)).2 "V2" (by decide)⟩

/-! ## C2, C3, C9: the schedule normalizer -/

/-- C2 as stated fails: with raw index `9223372036854775807` (a well-formed `int64`) and
`epochFirstSlot = 1 ≥ 0` the slot returned for `V1` is `-9223372036854775808`, not the sum
`9223372036854775808`. -/
theorem GetTrimmedLeaderSchedule_offset_overflow :
    overflowClient.GetLeaderSchedule () CommitmentConfirmed 0 =
      (.ok (AList.singleton "V1" [9223372036854775807]), ()) ∧
    IsInt64 9223372036854775807 ∧ IsInt64 1 ∧ (0 : Int) ≤ 1 ∧ "V1" ∈ ["V1"] ∧
    ((GetTrimmedLeaderSchedule overflowClient () ["V1"] 0 1).val.bind
      (fun out => out.lookup "V1")) = some [-9223372036854775808] ∧
    ((GetTrimmedLeaderSchedule overflowClient () ["V1"] 0 1).val.bind
      (fun out => out.lookup "V1")) ≠ some [9223372036854775807 + 1] := by
  refine ⟨rfl, by decide, by decide, by decide, by decide, by decide, by decide⟩

/-- C2, amended: when the query succeeds with `raw`, `epochFirstSlot ≥ 0` and `id` is both
requested and a key of `raw`, the returned map has at `id` a sequence of the length of
`raw[id]` whose `j`-th element is `raw[id][j] + epochFirstSlot` reduced to `int64` by
two's-complement wrap-around; it is the exact sum `raw[id][j] + epochFirstSlot` whenever
that sum does not exceed the largest `int64`. -/
theorem GetTrimmedLeaderSchedule_offset {σ β : Type} (client : Provider σ β) (s s' : σ)
    (identities : List String) (slot epochFirstSlot : Int) (raw : Schedule)
    (id : String) (leaderSlots : List Int)
    (hquery : client.GetLeaderSchedule s CommitmentConfirmed slot = (.ok raw, s'))
    (hefs : 0 ≤ epochFirstSlot) (hid : id ∈ identities)
    (hraw : raw.lookup id = some leaderSlots) (hint : ∀ v ∈ leaderSlots, IsInt64 v) :
    ∃ out absolute,
      (GetTrimmedLeaderSchedule client s identities slot epochFirstSlot).val = some out ∧
      (GetTrimmedLeaderSchedule client s identities slot epochFirstSlot).err = none ∧
      out.lookup id = some absolute ∧
      absolute.length = leaderSlots.length ∧
      (∀ (j : Nat) (v : Int), leaderSlots[j]? = some v →
        absolute[j]? = some (wrapInt64 (v + epochFirstSlot))) ∧
      (∀ (j : Nat) (v : Int), leaderSlots[j]? = some v → v + epochFirstSlot ≤ maxInt64 →
        absolute[j]? = some (v + epochFirstSlot)) := by
  have hwrap : ∀ (j : Nat) (v : Int), leaderSlots[j]? = some v →
      (leaderSlots.map (fun v => add64 v epochFirstSlot))[j]? =
        some (wrapInt64 (v + epochFirstSlot)) := by
    intro j v hj
    simp [List.getElem?_map, hj, add64]
  refine ⟨(identities.foldl (trimStep raw epochFirstSlot) ((∅ : Schedule), [])).1,
    leaderSlots.map (fun v => add64 v epochFirstSlot), ?_, ?_, ?_, ?_, hwrap, ?_⟩
  · simp only [GetTrimmedLeaderSchedule, hquery]
  · simp only [GetTrimmedLeaderSchedule, hquery]
  · rw [lookup_trim_foldl, if_pos hid, hraw]
    simp only [absoluteSlots_eq_map]
  · simp
  · intro j v hj hsum
    rw [hwrap j v hj, wrapInt64_of_isInt64]
    have hv := hint v (List.getElem?_mem hj)
    unfold IsInt64 at hv ⊢
    constructor
    · linarith [hv.1]
    · exact hsum

/-- C2, amended, on the example: `V1` with raw indices `[2, 5]` and `epochFirstSlot = 1000`. -/
theorem GetTrimmedLeaderSchedule_offset_witness :
    ∃ out absolute,
      (GetTrimmedLeaderSchedule exampleClient () ["V1", "V3"] 0 1000).val = some out ∧
      (GetTrimmedLeaderSchedule exampleClient () ["V1", "V3"] 0 1000).err = none ∧
      out.lookup "V1" = some absolute ∧
      absolute.length = [(2 : Int), 5].length ∧
      (∀ (j : Nat) (v : Int), [(2 : Int), 5][j]? = some v → absolute[j]? = some (wrapInt64 (v + 1000))) ∧
      (∀ (j : Nat) (v : Int), [(2 : Int), 5][j]? = some v → v + 1000 ≤ maxInt64 →
        absolute[j]? = some (v + 1000)) :=
  GetTrimmedLeaderSchedule_offset exampleClient () () ["V1", "V3"] 0 1000 exampleSchedule
    "V1" [2, 5] rfl (by decide) (by decide) (by decide) (by decide)

/-- C3: when the query succeeds with `raw`, `GetTrimmedLeaderSchedule` returns a map and no
error, for every identities list, and the keys of the map are exactly the identities that are
both requested and keys of `raw`.  On raw `{V1:[2,5], V2:[10]}`, `epochFirstSlot = 1000` and
identities `[V1, V3]` the map is `{V1:[1002,1005]}`. -/
theorem GetTrimmedLeaderSchedule_keys :
    (∀ {σ β : Type} (client : Provider σ β) (s s' : σ) (identities : List String)
      (slot epochFirstSlot : Int) (raw : Schedule),
      client.GetLeaderSchedule s CommitmentConfirmed slot = (.ok raw, s') →
      ∃ out,
        (GetTrimmedLeaderSchedule client s identities slot epochFirstSlot).val = some out ∧
        (GetTrimmedLeaderSchedule client s identities slot epochFirstSlot).err = none ∧
        (∀ k, k ∈ out ↔ k ∈ identities ∧ k ∈ raw) ∧
        (∀ k, k ∈ identities → k ∉ raw → k ∉ out) ∧
        (∀ k, k ∈ raw → k ∉ identities → k ∉ out)) ∧
    (GetTrimmedLeaderSchedule exampleClient () ["V1", "V3"] 0 1000).val =
      some (AList.singleton "V1" [1002, 1005]) ∧
    (GetTrimmedLeaderSchedule exampleClient () ["V1", "V3"] 0 1000).err = none := by
  refine ⟨?_, rfl, rfl⟩
  intro σ β client s s' identities slot epochFirstSlot raw hquery
  have hmem : ∀ k, k ∈ (identities.foldl (trimStep raw epochFirstSlot)
      ((∅ : Schedule), [])).1 ↔ k ∈ identities ∧ k ∈ raw := by
    intro k
    rw [← AList.lookup_isSome, ← AList.lookup_isSome, lookup_trim_foldl]
    by_cases hk : k ∈ identities
    · cases hl : raw.lookup k with
      | some leaderSlots => simp [hk]
      | none => simp [hk]
    · simp [hk]
  refine ⟨_, ?_, ?_, hmem, ?_, ?_⟩
  · simp only [GetTrimmedLeaderSchedule, hquery]
  · simp only [GetTrimmedLeaderSchedule, hquery]
  · intro k _ hraw hout
    exact hraw ((hmem k).mp hout).2
  · intro k _ hids hout
    exact hids ((hmem k).mp hout).1

/-- C3 on the example of the specification: the keys of the result are `V1` alone. -/
theorem GetTrimmedLeaderSchedule_keys_witness :
    ∃ out,
      (GetTrimmedLeaderSchedule exampleClient () ["V1", "V3"] 0 1000).val = some out ∧
      (GetTrimmedLeaderSchedule exampleClient () ["V1", "V3"] 0 1000).err = none ∧
      (∀ k, k ∈ out ↔ k ∈ ["V1", "V3"] ∧ k ∈ exampleSchedule) ∧
      (∀ k, k ∈ ["V1", "V3"] → k ∉ exampleSchedule → k ∉ out) ∧
      (∀ k, k ∈ exampleSchedule → k ∉ ["V1", "V3"] → k ∉ out) :=
  GetTrimmedLeaderSchedule_keys.1 exampleClient () () ["V1", "V3"] 0 1000 exampleSchedule rfl

/-- C9: `GetTrimmedLeaderSchedule` returns an error exactly when the `GetLeaderSchedule`
query does.  Then it returns no schedule, and its error wraps the error `e` of the query:
`Unwrap` gives `e` back and the text is `"failed to get leader schedule: "` followed by the
text of `e`.  When the query succeeds it returns a schedule and no error, whatever the
identities list and the raw schedule are. -/
theorem GetTrimmedLeaderSchedule_error {σ β : Type} (client : Provider σ β) (s : σ)
    (identities : List String) (slot epochFirstSlot : Int) :
    ((GetTrimmedLeaderSchedule client s identities slot epochFirstSlot).err ≠ none ↔
      ∃ e, (client.GetLeaderSchedule s CommitmentConfirmed slot).1 = .error e) ∧
    (∀ e, (client.GetLeaderSchedule s CommitmentConfirmed slot).1 = .error e →
      (GetTrimmedLeaderSchedule client s identities slot epochFirstSlot).val = none ∧
      ∃ w, (GetTrimmedLeaderSchedule client s identities slot epochFirstSlot).err = some w ∧
        w.Unwrap = some e ∧ w.Error = "failed to get leader schedule: " ++ e.Error) ∧
    (∀ raw, (client.GetLeaderSchedule s CommitmentConfirmed slot).1 = .ok raw →
      (GetTrimmedLeaderSchedule client s identities slot epochFirstSlot).err = none ∧
      (GetTrimmedLeaderSchedule client s identities slot epochFirstSlot).val.isSome = true) := by
  unfold GetTrimmedLeaderSchedule
  rcases hq : client.GetLeaderSchedule s CommitmentConfirmed slot with ⟨r, s'⟩
  cases r with
  | error e0 =>
    refine ⟨?_, ?_, ?_⟩
    · simp
    · intro e he
      simp only [Except.error.injEq] at he
      subst he
      exact ⟨rfl, _, rfl, rfl, rfl⟩
    · intro raw hraw
      simp at hraw
  | ok raw0 =>
    refine ⟨?_, ?_, ?_⟩
    · simp
    · intro e he
      simp at he
    · intro raw _
      exact ⟨rfl, rfl⟩

/-- C9 on a capability whose query fails with "connection refused". -/
theorem GetTrimmedLeaderSchedule_error_witness :
    (GetTrimmedLeaderSchedule failingClient () ["V1"] 0 1000).val = none ∧
    ∃ w, (GetTrimmedLeaderSchedule failingClient () ["V1"] 0 1000).err = some w ∧
      w.Unwrap = some (.foreign "connection refused") ∧
      w.Error = "failed to get leader schedule: " ++ (GoError.foreign "connection refused").Error :=
  (GetTrimmedLeaderSchedule_error failingClient () ["V1"] 0 1000).2.1
    (.foreign "connection refused") rfl

/-! ## C4, C5: the vote-account resolver -/

/-- C4: when the query succeeds and every requested node identity has a non-empty vote
identity in the map built from the current and delinquent records,
`GetAssociatedVoteAccounts` returns no error and a list of the length of `nodekeys` whose
`i`-th element is the vote identity mapped to the `i`-th node identity. -/
theorem GetAssociatedVoteAccounts_resolved {σ β : Type} (client : Provider σ β) (s s' : σ)
    (commitment : Commitment) (nodekeys : List String) (voteAccounts : VoteAccounts)
    (hquery : client.GetVoteAccounts s commitment none = (.ok voteAccounts, s'))
    (hall : ∀ k ∈ nodekeys, ∃ v, (voteAccountsMap voteAccounts).lookup k = some v ∧ v ≠ "") :
    ∃ votekeys,
      (GetAssociatedVoteAccounts client s commitment nodekeys).val = some votekeys ∧
      (GetAssociatedVoteAccounts client s commitment nodekeys).err = none ∧
      votekeys.length = nodekeys.length ∧
      (∀ (i : Nat) (k : String), nodekeys[i]? = some k →
        ∃ v, (voteAccountsMap voteAccounts).lookup k = some v ∧ votekeys[i]? = some v) := by
  have hne : ∀ k ∈ nodekeys, mapIndex (voteAccountsMap voteAccounts) k ≠ "" := by
    intro k hk
    obtain ⟨v, hv, hv'⟩ := hall k hk
    rw [mapIndex_of_lookup _ _ _ hv]
    exact hv'
  have hloop := resolveLoop_ok (voteAccountsMap voteAccounts) nodekeys 0 [] rfl hne
  simp only [List.nil_append] at hloop
  refine ⟨nodekeys.map (mapIndex (voteAccountsMap voteAccounts)), ?_, ?_, by simp, ?_⟩
  · simp only [GetAssociatedVoteAccounts, hquery, List.enum, hloop]
  · simp only [GetAssociatedVoteAccounts, hquery, List.enum, hloop]
  · intro i k hi
    obtain ⟨v, hv, _⟩ := hall k (List.getElem?_mem hi)
    refine ⟨v, hv, ?_⟩
    simp [List.getElem?_map, hi, mapIndex_of_lookup _ _ _ hv]

/-- C4 on the example snapshot, with a request that repeats `N2`. -/
theorem GetAssociatedVoteAccounts_resolved_witness :
    (GetAssociatedVoteAccounts voteClient () "finalized" ["N2", "N1", "N2"]).val =
      some ["Vote2", "Vote1", "Vote2"] ∧
    ∃ votekeys,
      (GetAssociatedVoteAccounts voteClient () "finalized" ["N2", "N1", "N2"]).val =
        some votekeys ∧
      (GetAssociatedVoteAccounts voteClient () "finalized" ["N2", "N1", "N2"]).err = none ∧
      votekeys.length = ["N2", "N1", "N2"].length ∧
      (∀ (i : Nat) (k : String), ["N2", "N1", "N2"][i]? = some k →
        ∃ v, (voteAccountsMap exampleVoteAccounts).lookup k = some v ∧
          votekeys[i]? = some v) :=
  ⟨by decide,
    GetAssociatedVoteAccounts_resolved voteClient () () "finalized" ["N2", "N1", "N2"]
      exampleVoteAccounts rfl (by decide)⟩

/-- C5: when the query succeeds and some requested node identity is absent from the map or
mapped to the empty vote identity, `GetAssociatedVoteAccounts` returns no list and an error
that names the first such identity of `nodekeys`: every identity before it is resolved. -/
theorem GetAssociatedVoteAccounts_unresolved {σ β : Type} (client : Provider σ β) (s s' : σ)
    (commitment : Commitment) (nodekeys : List String) (voteAccounts : VoteAccounts)
    (hquery : client.GetVoteAccounts s commitment none = (.ok voteAccounts, s'))
    (hsome : ∃ k ∈ nodekeys, (voteAccountsMap voteAccounts).lookup k = none ∨
      (voteAccountsMap voteAccounts).lookup k = some "") :
    ∃ pre k post, nodekeys = pre ++ k :: post ∧
      (∀ k' ∈ pre, ∃ v, (voteAccountsMap voteAccounts).lookup k' = some v ∧ v ≠ "") ∧
      ((voteAccountsMap voteAccounts).lookup k = none ∨
        (voteAccountsMap voteAccounts).lookup k = some "") ∧
      (GetAssociatedVoteAccounts client s commitment nodekeys).val = none ∧
      ∃ e, (GetAssociatedVoteAccounts client s commitment nodekeys).err = some e ∧
        e = .errorf ("failed to find vote key for node " ++ k) ∧
        e.Error = "failed to find vote key for node " ++ k := by
  have hsome' : ∃ k ∈ nodekeys, mapIndex (voteAccountsMap voteAccounts) k = "" := by
    obtain ⟨k, hk, hkm⟩ := hsome
    exact ⟨k, hk, (mapIndex_eq_empty_iff _ _).mpr hkm⟩
  obtain ⟨pre, k, post, hl, hpre, hk, hres⟩ :=
    resolveLoop_fail (voteAccountsMap voteAccounts) nodekeys 0
      (List.replicate nodekeys.length "") hsome'
  refine ⟨pre, k, post, hl, ?_, (mapIndex_eq_empty_iff _ _).mp hk, ?_, _, ?_, rfl, rfl⟩
  · intro k' hk'
    have hne := hpre k' hk'
    cases hlk : (voteAccountsMap voteAccounts).lookup k' with
    | none => exact absurd ((mapIndex_eq_empty_iff _ _).mpr (Or.inl hlk)) hne
    | some v =>
      refine ⟨v, rfl, ?_⟩
      intro hv
      exact hne ((mapIndex_eq_empty_iff _ _).mpr (Or.inr (by rw [hlk, hv])))
  · simp only [GetAssociatedVoteAccounts, hquery, List.enum, hres]
  · simp only [GetAssociatedVoteAccounts, hquery, List.enum, hres]

/-- C5 on the example snapshot: of the unresolved `N3` (empty vote key) and `N4` (absent),
the error names `N3`, the earlier one, and no list is returned although `N1` resolved. -/
theorem GetAssociatedVoteAccounts_unresolved_witness :
    (GetAssociatedVoteAccounts voteClient () "finalized" ["N1", "N3", "N4"]).val = none ∧
    (GetAssociatedVoteAccounts voteClient () "finalized" ["N1", "N3", "N4"]).err =
      some (.errorf "failed to find vote key for node N3") ∧
    ∃ pre k post, ["N1", "N3", "N4"] = pre ++ k :: post ∧
      (∀ k' ∈ pre, ∃ v, (voteAccountsMap exampleVoteAccounts).lookup k' = some v ∧ v ≠ "") ∧
      ((voteAccountsMap exampleVoteAccounts).lookup k = none ∨
        (voteAccountsMap exampleVoteAccounts).lookup k = some "") ∧
      (GetAssociatedVoteAccounts voteClient () "finalized" ["N1", "N3", "N4"]).val = none ∧
      ∃ e, (GetAssociatedVoteAccounts voteClient () "finalized" ["N1", "N3", "N4"]).err =
          some e ∧
        e = .errorf ("failed to find vote key for node " ++ k) ∧
        e.Error = "failed to find vote key for node " ++ k :=
  ⟨by decide, by decide,
    GetAssociatedVoteAccounts_unresolved voteClient () () "finalized" ["N1", "N3", "N4"]
      exampleVoteAccounts rfl ⟨"N4", by decide, Or.inl (by decide)⟩⟩

/-! ## C6: the set-union helper -/

/-- C6 as stated fails for the comparable type `float64`: on the single input
`[NaN, 1, NaN, NaN]` the result is `[NaN, 1, NaN, NaN]`, which contains `NaN` three times
and is not the keep-first deduplication `[NaN, 1]`, because `NaN == NaN` is false.  For the
comparable type `any` a call may return nothing: comparing two `[]int` values panics. -/
theorem CombineUnique_float_duplicates :
    CombineUnique [[nan64, one64, nan64, nan64]] = some [nan64, one64, nan64, nan64] ∧
    ¬ [nan64, one64, nan64, nan64].Nodup ∧
    keepFirst [[nan64, one64, nan64, nan64]].flatten = [nan64, one64] ∧
    Comparable.eq nan64 nan64 = some false ∧
    CombineUnique [[AnyValue.ints [1], AnyValue.ints [2]]] = none := by
  refine ⟨by decide, by decide, by decide, by decide, by decide⟩

/-- C6, amended: for every list of input sequences over an element type whose `==` never
panics and is the equality of the values (as for strings), `CombineUnique` returns a sequence
that has no element twice, that contains exactly the elements occurring in some input, and
in which `x` stands before `y` exactly when the first occurrence of `x` in the concatenation
of the inputs is before that of `y`; it is the keep-first deduplication of the
concatenation.  And `CombineUnique([a,b,a], [c,b]) = [a,b,c]`. -/
theorem CombineUnique_keepFirst :
    (∀ {T : Type} [Comparable T] [DecidableEq T],
      (∀ x y : T, Comparable.eq x y = some (decide (x = y))) →
      ∀ args : List (List T), ∃ r, CombineUnique args = some r ∧
        r.Nodup ∧
        (∀ x, x ∈ r ↔ ∃ arg ∈ args, x ∈ arg) ∧
        (∀ x y, r.indexOf x < r.indexOf y ↔
          args.flatten.indexOf x < args.flatten.indexOf y) ∧
        r = keepFirst args.flatten) ∧
    CombineUnique [["a", "b", "a"], ["c", "b"]] = some ["a", "b", "c"] := by
  refine ⟨?_, by decide⟩
  intro T _ _ hlaw args
  refine ⟨keepFirst args.flatten, CombineUnique_eq_keepFirst hlaw args, nodup_keepFirst _,
    ?_, ?_, rfl⟩
  · intro x
    rw [mem_keepFirst, List.mem_flatten]
  · intro x y
    exact indexOf_keepFirst_lt x y _

/-- C6, amended, on strings, whose `==` is the equality of the values. -/
theorem CombineUnique_keepFirst_witness :
    ∃ r, CombineUnique [["a", "b", "a"], ["c", "b"]] = some r ∧
      r.Nodup ∧
      (∀ x, x ∈ r ↔ ∃ arg ∈ [["a", "b", "a"], ["c", "b"]], x ∈ arg) ∧
      (∀ x y, r.indexOf x < r.indexOf y ↔
        [["a", "b", "a"], ["c", "b"]].flatten.indexOf x <
          [["a", "b", "a"], ["c", "b"]].flatten.indexOf y) ∧
      r = keepFirst [["a", "b", "a"], ["c", "b"]].flatten :=
  CombineUnique_keepFirst.1 (fun _ _ => rfl) [["a", "b", "a"], ["c", "b"]]

/-! ## C7, C8: the balance fetcher -/

/-- C7: when every `GetBalance` query along the list succeeds, `FetchBalances` returns no
error and a map whose keys are exactly the requested addresses, each mapped to the balance
its query returned; for an address that is repeated, the balance of its last query. -/
theorem FetchBalances_balances {σ β : Type} (client : Provider σ β) (s : σ)
    (addresses : List String)
    (hall : ∀ p ∈ balanceAnswers client addresses s, ∃ b, p.2 = .ok b) :
    ∃ m, (FetchBalances client s addresses).val = some m ∧
      (FetchBalances client s addresses).err = none ∧
      (∀ a, a ∈ m ↔ a ∈ addresses) ∧
      (∀ a, a ∈ addresses →
        ∃ b, lastAnswer (balanceAnswers client addresses s) a = some (.ok b) ∧
          m.lookup a = some b) := by
  obtain ⟨m, hval, herr, hlook⟩ := fetchLoop_ok client addresses (∅ : GoMap β) s hall
  have hlast : ∀ a, a ∈ addresses →
      ∃ b, lastAnswer (balanceAnswers client addresses s) a = some (.ok b) := by
    intro a ha
    have hsome : (lastAnswer (balanceAnswers client addresses s) a).isSome = true := by
      rw [lastAnswer_isSome_iff, balanceAnswers_keys]
      exact ha
    obtain ⟨r, hr⟩ := Option.isSome_iff_exists.mp hsome
    obtain ⟨b, hb⟩ := hall (a, r) (mem_of_lastAnswer _ _ _ hr)
    simp only at hb
    exact ⟨b, by rw [hr, hb]⟩
  refine ⟨m, hval, herr, ?_, ?_⟩
  · intro a
    rw [← AList.lookup_isSome, hlook a]
    constructor
    · intro h
      cases hla : lastAnswer (balanceAnswers client addresses s) a with
      | none => simp [hla] at h
      | some r =>
        have hsome : (lastAnswer (balanceAnswers client addresses s) a).isSome = true := by
          simp [hla]
        rw [lastAnswer_isSome_iff, balanceAnswers_keys] at hsome
        exact hsome
    · intro ha
      obtain ⟨b, hb⟩ := hlast a ha
      simp [hb]
  · intro a ha
    obtain ⟨b, hb⟩ := hlast a ha
    exact ⟨b, hb, by rw [hlook a, hb]⟩

/-- C7 on a capability that answers its query count, asked for `A`, `B` and `A` again: `A`
holds the balance of its second query. -/
theorem FetchBalances_balances_witness :
    (∀ p ∈ balanceAnswers countingClient ["A", "B", "A"] 0, ∃ b, p.2 = .ok b) ∧
    lastAnswer (balanceAnswers countingClient ["A", "B", "A"] 0) "A" = some (.ok 2) ∧
    ∃ m, (FetchBalances countingClient 0 ["A", "B", "A"]).val = some m ∧
      (FetchBalances countingClient 0 ["A", "B", "A"]).err = none ∧
      (∀ a, a ∈ m ↔ a ∈ ["A", "B", "A"]) ∧
      (∀ a, a ∈ ["A", "B", "A"] →
        ∃ b, lastAnswer (balanceAnswers countingClient ["A", "B", "A"] 0) a = some (.ok b) ∧
          m.lookup a = some b) := by
  have hall : ∀ p ∈ balanceAnswers countingClient ["A", "B", "A"] 0, ∃ b, p.2 = .ok b := by
    intro p hp
    simp only [balanceAnswers, countingClient, List.mem_cons, List.mem_singleton,
      List.not_mem_nil, or_false] at hp
    rcases hp with rfl | rfl | rfl <;> exact ⟨_, rfl⟩
  exact ⟨hall, by simp [lastAnswer, balanceAnswers, countingClient, List.lookup],
    FetchBalances_balances countingClient 0 ["A", "B", "A"] hall⟩

/-- C8: when some `GetBalance` query along the list fails, `FetchBalances` returns no map at
all and the error of the first failing query: the answers before it are all successes.  On
`[addr1, addr2]` with a capability answering `1.5` and then an error, the result is that
error and no map. -/
theorem FetchBalances_first_error :
    (∀ {σ β : Type} (client : Provider σ β) (s : σ) (addresses : List String),
      (∃ p ∈ balanceAnswers client addresses s, ∃ e, p.2 = Except.error e) →
      ∃ (answered : List (String × Except GoError β)) (a : String) (e : GoError)
        (later : List (String × Except GoError β)),
        balanceAnswers client addresses s = answered ++ (a, Except.error e) :: later ∧
        (∀ p ∈ answered, ∃ b, p.2 = Except.ok b) ∧
        (FetchBalances client s addresses).val = none ∧
        (FetchBalances client s addresses).err = some e) ∧
    balanceAnswers flakyClient ["addr1", "addr2"] 0 =
      [("addr1", .ok 1.5), ("addr2", .error (.foreign "timeout"))] ∧
    (FetchBalances flakyClient 0 ["addr1", "addr2"]).val = none ∧
    (FetchBalances flakyClient 0 ["addr1", "addr2"]).err = some (.foreign "timeout") := by
  refine ⟨?_, rfl, rfl, rfl⟩
  intro σ β client s addresses h
  exact fetchLoop_fail client addresses (∅ : GoMap β) s h

/-- C8 on the capability answering `1.5` and then an error. -/
theorem FetchBalances_first_error_witness :
    ∃ answered a e later,
      balanceAnswers flakyClient ["addr1", "addr2"] 0 = answered ++ (a, .error e) :: later ∧
      (∀ p ∈ answered, ∃ b, p.2 = .ok b) ∧
      (FetchBalances flakyClient 0 ["addr1", "addr2"]).val = none ∧
      (FetchBalances flakyClient 0 ["addr1", "addr2"]).err = some e :=
  FetchBalances_first_error.1 flakyClient 0 ["addr1", "addr2"]
    ⟨("addr2", .error (.foreign "timeout")), by simp [balanceAnswers, flakyClient],
      .foreign "timeout", rfl⟩

/-! ## C11, C12, C17: algebra of the range selector -/

/-- C11: for a schedule with at least one slot value, selecting the range from its smallest
to its largest slot value gives the schedule back: the same keys, and at each key the same
values in the same order. -/
theorem SelectFromSchedule_full_range (schedule : Schedule)
    (h : allSlots schedule ≠ []) :
    (∀ k, k ∈ SelectFromSchedule schedule (minSlot schedule) (maxSlot schedule) ↔
      k ∈ schedule) ∧
    sameMap (SelectFromSchedule schedule (minSlot schedule) (maxSlot schedule)) schedule ∧
    minSlot schedule ∈ allSlots schedule ∧ maxSlot schedule ∈ allSlots schedule ∧
    (∀ v ∈ allSlots schedule, minSlot schedule ≤ v ∧ v ≤ maxSlot schedule) := by
  have hbound : ∀ v ∈ allSlots schedule, minSlot schedule ≤ v ∧ v ≤ maxSlot schedule :=
    fun v hv => ⟨minSlot_le schedule v hv, le_maxSlot schedule v hv⟩
  refine ⟨mem_SelectFromSchedule schedule _ _, ?_, ?_, ?_, hbound⟩
  · intro k
    rw [lookup_SelectFromSchedule]
    cases hk : schedule.lookup k with
    | none => rfl
    | some values =>
      rw [Option.map_some', List.filter_eq_self.mpr]
      intro v hv
      have hb := hbound v (mem_allSlots_of_lookup schedule k values hk v hv)
      simp [inRange, hb.1, hb.2]
  · unfold minSlot
    cases hall : allSlots schedule with
    | nil => exact absurd hall h
    | cons w ws =>
      simp only
      have hgen : ∀ (l : List Int) (a : Int), l.foldl min a = a ∨ l.foldl min a ∈ l := by
        intro l
        induction l with
        | nil => intro a; simp
        | cons y ys ih =>
          intro a
          rw [List.foldl_cons]
          rcases ih (min a y) with h1 | h1
          · rcases min_choice a y with h2 | h2
            · left; rw [h1, h2]
            · right; rw [h1, h2]; exact List.mem_cons_self _ _
          · right; exact List.mem_cons_of_mem _ h1
      rcases hgen ws w with h1 | h1
      · rw [h1]; exact List.mem_cons_self _ _
      · exact List.mem_cons_of_mem _ h1
  · unfold maxSlot
    cases hall : allSlots schedule with
    | nil => exact absurd hall h
    | cons w ws =>
      simp only
      have hgen : ∀ (l : List Int) (a : Int), l.foldl max a = a ∨ l.foldl max a ∈ l := by
        intro l
        induction l with
        | nil => intro a; simp
        | cons y ys ih =>
          intro a
          rw [List.foldl_cons]
          rcases ih (max a y) with h1 | h1
          · rcases max_choice a y with h2 | h2
            · left; rw [h1, h2]
            · right; rw [h1, h2]; exact List.mem_cons_self _ _
          · right; exact List.mem_cons_of_mem _ h1
      rcases hgen ws w with h1 | h1
      · rw [h1]; exact List.mem_cons_self _ _
      · exact List.mem_cons_of_mem _ h1

/-- C11 on the example schedule, whose slots range from `2` to `10`. -/
theorem SelectFromSchedule_full_range_witness :
    minSlot exampleSchedule = 2 ∧ maxSlot exampleSchedule = 10 ∧
    sameMap (SelectFromSchedule exampleSchedule (minSlot exampleSchedule)
      (maxSlot exampleSchedule)) exampleSchedule :=
  ⟨by decide, by decide, (SelectFromSchedule_full_range exampleSchedule (by decide)).2.1⟩

/-- C12: `SelectFromSchedule` is idempotent for a fixed range: selecting `[a, b]` from the
selection of `[a, b]` gives the same map as selecting once. -/
theorem SelectFromSchedule_idempotent (schedule : Schedule) (a b : Int) :
    sameMap (SelectFromSchedule (SelectFromSchedule schedule a b) a b)
      (SelectFromSchedule schedule a b) := by
  intro k
  rw [lookup_SelectFromSchedule, lookup_SelectFromSchedule, Option.map_map]
  congr 1
  funext values
  simp only [Function.comp_apply]
  rw [filter_inRange_filter, max_self, min_self]

/-- C17: range selections compose as range intersection, selecting `[c, d]` from the
selection of `[a, b]` is selecting `[max a c, min b d]`; successive selections commute; and
selecting a range inside `[a, b]` yields, at each key, a subsequence of the selection of
`[a, b]`. -/
theorem SelectFromSchedule_compose (schedule : Schedule) (a b c d : Int) :
    sameMap (SelectFromSchedule (SelectFromSchedule schedule a b) c d)
      (SelectFromSchedule schedule (max a c) (min b d)) ∧
    sameMap (SelectFromSchedule (SelectFromSchedule schedule a b) c d)
      (SelectFromSchedule (SelectFromSchedule schedule c d) a b) ∧
    (a ≤ c → d ≤ b → ∀ k narrow wide,
      (SelectFromSchedule schedule c d).lookup k = some narrow →
      (SelectFromSchedule schedule a b).lookup k = some wide →
      narrow.Sublist wide) := by
  have hcomp : ∀ (a b c d : Int),
      sameMap (SelectFromSchedule (SelectFromSchedule schedule a b) c d)
        (SelectFromSchedule schedule (max a c) (min b d)) := by
    intro a b c d k
    rw [lookup_SelectFromSchedule, lookup_SelectFromSchedule, lookup_SelectFromSchedule,
      Option.map_map]
    congr 1
    funext values
    simp only [Function.comp_apply]
    rw [filter_inRange_filter]
  refine ⟨hcomp a b c d, ?_, ?_⟩
  · intro k
    rw [hcomp a b c d k, hcomp c d a b k, max_comm, min_comm]
  · intro hac hdb k narrow wide hn hw
    have h1 := hcomp a b c d k
    rw [max_eq_right hac, min_eq_right hdb, hn, lookup_SelectFromSchedule, hw,
      Option.map_some'] at h1
    have h2 : narrow = wide.filter (inRange c d) := (Option.some.inj h1).symm
    rw [h2]
    exact List.filter_sublist wide

/-- C17 on the example schedule: the range `[4, 7]` lies inside `[0, 7]`, and the selection
`[5]` of `V1` for it is a subsequence of its selection `[2, 5]` for the wider range. -/
theorem SelectFromSchedule_compose_witness :
    (SelectFromSchedule exampleSchedule 4 7).lookup "V1" = some [5] ∧
    (SelectFromSchedule exampleSchedule 0 7).lookup "V1" = some [2, 5] ∧
    [(5 : Int)].Sublist [2, 5] :=
  ⟨by decide, by decide,
    (SelectFromSchedule_compose exampleSchedule 0 7 4 7).2.2 (by decide) (by decide)
      "V1" [5] [2, 5] (by decide) (by decide)⟩

/-! ## C13: precedence in the vote-account map -/

/-- C13: in the map nodekey -> votekey built from `current ++ delinquent`, the vote identity
of any node is that of its last record in `current ++ delinquent`; for a node with a
delinquent record it is that of its last delinquent record, whatever the current records say,
and for a node with none it is that of its last current record. -/
theorem voteAccountsMap_last_wins (voteAccounts : VoteAccounts) (node : String) :
    (voteAccountsMap voteAccounts).lookup node =
      lastVoteKey (voteAccounts.Current ++ voteAccounts.Delinquent) node ∧
    ((∃ r ∈ voteAccounts.Delinquent, r.NodePubkey = node) →
      (voteAccountsMap voteAccounts).lookup node =
        lastVoteKey voteAccounts.Delinquent node) ∧
    ((∀ r ∈ voteAccounts.Delinquent, r.NodePubkey ≠ node) →
      (voteAccountsMap voteAccounts).lookup node =
        lastVoteKey voteAccounts.Current node) := by
  refine ⟨lookup_voteAccountsMap voteAccounts node, ?_, ?_⟩
  · intro h
    rw [lookup_voteAccountsMap, lastVoteKey_append]
    have hsome := (lastVoteKey_isSome_iff voteAccounts.Delinquent node).mpr h
    obtain ⟨v, hv⟩ := Option.isSome_iff_exists.mp hsome
    rw [hv]
  · intro h
    rw [lookup_voteAccountsMap, lastVoteKey_append]
    have hnone : lastVoteKey voteAccounts.Delinquent node = none := by
      cases hl : lastVoteKey voteAccounts.Delinquent node with
      | none => rfl
      | some v =>
        have hsome : (lastVoteKey voteAccounts.Delinquent node).isSome = true := by
          simp [hl]
        obtain ⟨r, hr, hrn⟩ := (lastVoteKey_isSome_iff _ _).mp hsome
        exact absurd hrn (h r hr)
    rw [hnone]

/-- C13 on a snapshot with `N1` both current (`VoteC`) and delinquent (`VoteD`): the map and
`GetAssociatedVoteAccounts` resolve `N1` to `VoteD`. -/
theorem voteAccountsMap_last_wins_witness :
    (GetAssociatedVoteAccounts overlapClient () "finalized" ["N1", "N2"]).val =
      some ["VoteD", "Vote2"] ∧
    lastVoteKey overlapVoteAccounts.Delinquent "N1" = some "VoteD" ∧
    (voteAccountsMap overlapVoteAccounts).lookup "N1" =
      lastVoteKey overlapVoteAccounts.Delinquent "N1" :=
  ⟨by decide, by decide,
    (voteAccountsMap_last_wins overlapVoteAccounts "N1").2.1
      ⟨{ NodePubkey := "N1", VotePubkey := "VoteD" }, by decide, rfl⟩⟩

/-! ## C15, C19: further properties of the schedule normalizer -/

/-- C15: if `epochFirstSlot ≥ 0`, `slotsPerEpoch > 0`, `epochFirstSlot + slotsPerEpoch` is an
`int64` and every index of the raw schedule lies in `[0, slotsPerEpoch)`, then every value
of every sequence of the map returned by `GetTrimmedLeaderSchedule` lies in
`[epochFirstSlot, epochFirstSlot + slotsPerEpoch)`. -/
theorem GetTrimmedLeaderSchedule_range {σ β : Type} (client : Provider σ β) (s s' : σ)
    (identities : List String) (slot epochFirstSlot slotsPerEpoch : Int) (raw : Schedule)
    (hquery : client.GetLeaderSchedule s CommitmentConfirmed slot = (.ok raw, s'))
    (hefs : 0 ≤ epochFirstSlot) (_hspe : 0 < slotsPerEpoch)
    (hrep : IsInt64 (epochFirstSlot + slotsPerEpoch))
    (hraw : ∀ v ∈ allSlots raw, 0 ≤ v ∧ v < slotsPerEpoch) :
    ∃ out, (GetTrimmedLeaderSchedule client s identities slot epochFirstSlot).val = some out ∧
      ∀ k absolute, out.lookup k = some absolute →
        ∀ w ∈ absolute, epochFirstSlot ≤ w ∧ w < epochFirstSlot + slotsPerEpoch := by
  refine ⟨_, (val_GetTrimmedLeaderSchedule client s s' identities slot epochFirstSlot raw
    hquery).1, ?_⟩
  intro k absolute hk w hw
  rw [lookup_trimmed] at hk
  by_cases hmem : k ∈ identities
  · rw [if_pos hmem] at hk
    cases hl : raw.lookup k with
    | none => rw [hl] at hk; simp at hk
    | some leaderSlots =>
      rw [hl, Option.map_some'] at hk
      have habs : absolute = leaderSlots.map (fun v => add64 v epochFirstSlot) :=
        (Option.some.inj hk).symm
      rw [habs, List.mem_map] at hw
      obtain ⟨v, hv, hvw⟩ := hw
      have hb := hraw v (mem_allSlots_of_lookup raw k leaderSlots hl v hv)
      have hin : IsInt64 (v + epochFirstSlot) := by
        unfold IsInt64 minInt64 maxInt64 at hrep ⊢
        constructor
        · linarith [hb.1]
        · linarith [hb.2, hrep.2]
      rw [← hvw, add64, wrapInt64_of_isInt64 _ hin]
      constructor
      · linarith [hb.1]
      · linarith [hb.2]
  · rw [if_neg hmem] at hk
    simp at hk

/-- C15 on the example: indices below `432000` and `epochFirstSlot = 1000`. -/
theorem GetTrimmedLeaderSchedule_range_witness :
    ∃ out, (GetTrimmedLeaderSchedule exampleClient () ["V1", "V2"] 0 1000).val = some out ∧
      ∀ k absolute, out.lookup k = some absolute →
        ∀ w ∈ absolute, (1000 : Int) ≤ w ∧ w < 1000 + 432000 :=
  GetTrimmedLeaderSchedule_range exampleClient () () ["V1", "V2"] 0 1000 432000
    exampleSchedule rfl (by decide) (by decide) (by decide) (by decide)

/-- C19: two identities lists with the same set of elements give equal output maps, for every
raw schedule and `epochFirstSlot`: order and multiplicity of the identities do not matter. -/
theorem GetTrimmedLeaderSchedule_identity_set {σ β : Type} (client : Provider σ β) (s s' : σ)
    (identities₁ identities₂ : List String) (slot epochFirstSlot : Int) (raw : Schedule)
    (hquery : client.GetLeaderSchedule s CommitmentConfirmed slot = (.ok raw, s'))
    (hset : ∀ k, k ∈ identities₁ ↔ k ∈ identities₂) :
    ∃ out₁ out₂,
      (GetTrimmedLeaderSchedule client s identities₁ slot epochFirstSlot).val = some out₁ ∧
      (GetTrimmedLeaderSchedule client s identities₂ slot epochFirstSlot).val = some out₂ ∧
      sameMap out₁ out₂ := by
  refine ⟨_, _,
    (val_GetTrimmedLeaderSchedule client s s' identities₁ slot epochFirstSlot raw hquery).1,
    (val_GetTrimmedLeaderSchedule client s s' identities₂ slot epochFirstSlot raw hquery).1,
    ?_⟩
  intro k
  rw [lookup_trimmed, lookup_trimmed]
  by_cases hk : k ∈ identities₁
  · rw [if_pos hk, if_pos ((hset k).mp hk)]
  · rw [if_neg hk, if_neg (fun h => hk ((hset k).mpr h))]

/-- C19 on the example: `[V1, V2]` against the reordered list `[V2, V1, V1]` with a
duplicate. -/
theorem GetTrimmedLeaderSchedule_identity_set_witness :
    ∃ out₁ out₂,
      (GetTrimmedLeaderSchedule exampleClient () ["V1", "V2"] 0 1000).val = some out₁ ∧
      (GetTrimmedLeaderSchedule exampleClient () ["V2", "V1", "V1"] 0 1000).val = some out₂ ∧
      sameMap out₁ out₂ :=
  GetTrimmedLeaderSchedule_identity_set exampleClient () () ["V1", "V2"] ["V2", "V1", "V1"]
    0 1000 exampleSchedule rfl
    (fun k => by
      simp only [List.mem_cons, List.mem_singleton, List.not_mem_nil, or_false]
      tauto)

/-! ## C20: algebra of the set-union helper -/

/-- C20 as stated fails for the comparable type `float64`: the sequence `[0, -0]` has no
repeated element, yet `CombineUnique` returns `[0]`, because `0 == -0`.  For the comparable
type `any` the call on the duplicate-free `[[]int{1}, []int{2}]` panics and returns
nothing. -/
theorem CombineUnique_zero_merged :
    [posZero64, negZero64].Nodup ∧
    CombineUnique [[posZero64, negZero64]] = some [posZero64] ∧
    CombineUnique [[posZero64, negZero64]] ≠ some [posZero64, negZero64] ∧
    Comparable.eq negZero64 posZero64 = some true ∧
    [AnyValue.ints [1], AnyValue.ints [2]].Nodup ∧
    CombineUnique [[AnyValue.ints [1], AnyValue.ints [2]]] = none := by
  refine ⟨by decide, by decide, by decide, by decide, by decide, by decide⟩

/-- C20, amended: `CombineUnique` applied to its own result gives that result again, for
every element type with `==` (and when the inner call panics, so does the outer).
`CombineUnique` of a single sequence is that sequence when no element of it is `==` to an
earlier one, the comparisons not panicking; for an element type whose `==` never panics and
is the equality of the values, that is every sequence with no repeated element. -/
theorem CombineUnique_idempotent :
    (∀ {T : Type} [Comparable T] (args : List (List T)),
      (CombineUnique args).bind (fun r => CombineUnique [r]) = CombineUnique args) ∧
    (∀ {T : Type} [Comparable T] (args : List (List T)) (r : List T),
      CombineUnique args = some r → CombineUnique [r] = some r) ∧
    (∀ {T : Type} [Comparable T] (xs : List T),
      xs.Pairwise (fun y x => Comparable.eq x y = some false) →
      CombineUnique [xs] = some xs) ∧
    (∀ {T : Type} [Comparable T] [DecidableEq T],
      (∀ x y : T, Comparable.eq x y = some (decide (x = y))) →
      ∀ xs : List T, xs.Nodup → CombineUnique [xs] = some xs) := by
  have hre : ∀ {T : Type} [Comparable T] (args : List (List T)) (r : List T),
      CombineUnique args = some r → CombineUnique [r] = some r := by
    intro T _ args r h
    unfold CombineUnique at h ⊢
    rw [combineArgs_eq_combineItems] at h
    rw [combineArgs_singleton]
    exact combineItems_settled args.flatten [] r (by simp [combineItems]) h
  have hpair : ∀ {T : Type} [Comparable T] (xs : List T),
      xs.Pairwise (fun y x => Comparable.eq x y = some false) →
      CombineUnique [xs] = some xs := by
    intro T _ xs hp
    unfold CombineUnique
    rw [combineArgs_singleton, combineItems_pairwise xs [] (by simp) hp]
    simp
  refine ⟨?_, hre, hpair, ?_⟩
  · intro T _ args
    cases h : CombineUnique args with
    | none => rfl
    | some r => exact hre args r h
  · intro T _ _ hlaw xs hxs
    exact hpair xs (pairwise_of_nodup hlaw xs hxs)

/-- C20, amended, on strings and on `float64`: the result `[a, b, c]` is returned as it is,
so is the duplicate-free `[a, b, c]`, and so is `[NaN, 1, NaN]`, no element of which is `==`
to an earlier one. -/
theorem CombineUnique_idempotent_witness :
    CombineUnique [["a", "b", "a"], ["c", "b"]] = some ["a", "b", "c"] ∧
    CombineUnique [["a", "b", "c"]] = some ["a", "b", "c"] ∧
    CombineUnique [[nan64, one64, nan64]] = some [nan64, one64, nan64] ∧
    CombineUnique [["a", "b", "c"]] = some ["a", "b", "c"] :=
  ⟨by decide,
    CombineUnique_idempotent.2.1 [["a", "b", "a"], ["c", "b"]] ["a", "b", "c"] (by decide),
    CombineUnique_idempotent.2.2.1 [nan64, one64, nan64] (by decide),
    CombineUnique_idempotent.2.2.2 (fun _ _ => rfl) ["a", "b", "c"] (by decide)⟩

/-! ## C18: the range selector and the offset of the normalizer -/

/-- C18: when no addition `index + epochFirstSlot` and neither subtraction
`a - epochFirstSlot`, `b - epochFirstSlot` overflows `int64`, selecting the absolute range
`[a, b]` from the schedule `GetTrimmedLeaderSchedule` produces from the raw schedule `R`
gives the same map as `GetTrimmedLeaderSchedule` produces from
`SelectFromSchedule R (a - epochFirstSlot) (b - epochFirstSlot)`. -/
theorem SelectFromSchedule_offset_commute {σ₁ β₁ σ₂ β₂ : Type}
    (client₁ : Provider σ₁ β₁) (client₂ : Provider σ₂ β₂) (s₁ t₁ : σ₁) (s₂ t₂ : σ₂)
    (identities : List String) (slot epochFirstSlot a b : Int) (raw : Schedule)
    (hquery₁ : client₁.GetLeaderSchedule s₁ CommitmentConfirmed slot = (.ok raw, t₁))
    (hquery₂ : client₂.GetLeaderSchedule s₂ CommitmentConfirmed slot =
      (.ok (SelectFromSchedule raw (sub64 a epochFirstSlot) (sub64 b epochFirstSlot)), t₂))
    (hadd : ∀ v ∈ allSlots raw, IsInt64 (v + epochFirstSlot))
    (ha : IsInt64 (a - epochFirstSlot)) (hb : IsInt64 (b - epochFirstSlot)) :
    ∃ out₁ out₂,
      (GetTrimmedLeaderSchedule client₁ s₁ identities slot epochFirstSlot).val = some out₁ ∧
      (GetTrimmedLeaderSchedule client₂ s₂ identities slot epochFirstSlot).val = some out₂ ∧
      sameMap (SelectFromSchedule out₁ a b) out₂ := by
  refine ⟨_, _,
    (val_GetTrimmedLeaderSchedule client₁ s₁ t₁ identities slot epochFirstSlot raw hquery₁).1,
    (val_GetTrimmedLeaderSchedule client₂ s₂ t₂ identities slot epochFirstSlot _ hquery₂).1,
    ?_⟩
  intro k
  rw [lookup_SelectFromSchedule, lookup_trimmed, lookup_trimmed, lookup_SelectFromSchedule,
    sub64, sub64, wrapInt64_of_isInt64 _ ha, wrapInt64_of_isInt64 _ hb]
  by_cases hk : k ∈ identities
  · rw [if_pos hk, if_pos hk]
    cases hl : raw.lookup k with
    | none => rfl
    | some leaderSlots =>
      simp only [Option.map_some']
      rw [filter_offset a b epochFirstSlot leaderSlots
        (fun v hv => hadd v (mem_allSlots_of_lookup raw k leaderSlots hl v hv))]
  · rw [if_neg hk, if_neg hk]
    rfl

/-- C18 on the example: `epochFirstSlot = 1000` and the absolute range `[1000, 1003]`, which
is the index range `[0, 3]`. -/
theorem SelectFromSchedule_offset_commute_witness :
    ∃ out₁ out₂,
      (GetTrimmedLeaderSchedule exampleClient () ["V1", "V2"] 0 1000).val = some out₁ ∧
      (GetTrimmedLeaderSchedule selectedClient () ["V1", "V2"] 0 1000).val = some out₂ ∧
      sameMap (SelectFromSchedule out₁ 1000 1003) out₂ :=
  SelectFromSchedule_offset_commute exampleClient selectedClient () () () () ["V1", "V2"]
    0 1000 1000 1003 exampleSchedule rfl rfl (by decide) (by decide) (by decide)

/-! ## C16, C14: the queries made and the propagation of transport errors -/

/-- C16: run on a capability that records its calls, `FetchBalances` makes exactly the
`GetBalance` queries for the addresses of the input list up to and including the first one
whose query fails, in input order and once per occurrence: the whole list when no query
fails, and nothing after the first failing address.  Recording changes neither the value
nor the error returned. -/
theorem FetchBalances_queries {σ β : Type} (client : Provider σ β) (s : σ)
    (addresses : List String) :
    (FetchBalances (recording client) (s, []) addresses).state.2 =
      (queriedPrefix (balanceAnswers client addresses s)).map
        (Call.getBalance CommitmentConfirmed) ∧
    (FetchBalances (recording client) (s, []) addresses).val =
      (FetchBalances client s addresses).val ∧
    (FetchBalances (recording client) (s, []) addresses).err =
      (FetchBalances client s addresses).err ∧
    ((∀ p ∈ balanceAnswers client addresses s, ∃ b, p.2 = Except.ok b) →
      (FetchBalances (recording client) (s, []) addresses).state.2 =
        addresses.map (Call.getBalance CommitmentConfirmed)) ∧
    (∀ (answered : List (String × Except GoError β)) (a : String) (e : GoError)
      (later : List (String × Except GoError β)),
      balanceAnswers client addresses s = answered ++ (a, Except.error e) :: later →
      (∀ p ∈ answered, ∃ b, p.2 = Except.ok b) →
      addresses = answered.map Prod.fst ++ a :: later.map Prod.fst ∧
      (FetchBalances (recording client) (s, []) addresses).state.2 =
        (answered.map Prod.fst ++ [a]).map (Call.getBalance CommitmentConfirmed)) := by
  obtain ⟨hval, herr, hcalls⟩ := fetchLoop_recording client addresses (∅ : GoMap β) s []
  rw [List.nil_append] at hcalls
  refine ⟨hcalls, hval, herr, ?_, ?_⟩
  · intro hall
    unfold FetchBalances
    rw [hcalls, queriedPrefix_of_ok _ hall, balanceAnswers_keys]
  · intro answered a e later hans hok
    constructor
    · have hkeys := balanceAnswers_keys client addresses s
      rw [hans] at hkeys
      simpa using hkeys.symm
    · unfold FetchBalances
      rw [hcalls, hans, queriedPrefix_of_first_error a e later answered hok]

/-- C16 on the capability answering `1.5` and then errors, asked for three addresses: the
third is never queried. -/
theorem FetchBalances_queries_witness :
    (FetchBalances (recording flakyClient) (0, []) ["addr1", "addr2", "addr3"]).state.2 =
      [Call.getBalance CommitmentConfirmed "addr1",
        Call.getBalance CommitmentConfirmed "addr2"] ∧
    ["addr1", "addr2", "addr3"] =
      [("addr1", (Except.ok 1.5 : Except GoError Rat))].map Prod.fst ++
        "addr2" :: [("addr3", (Except.error (.foreign "timeout") : Except GoError Rat))].map
          Prod.fst ∧
    (FetchBalances (recording flakyClient) (0, []) ["addr1", "addr2", "addr3"]).state.2 =
      ([("addr1", (Except.ok 1.5 : Except GoError Rat))].map Prod.fst ++ ["addr2"]).map
        (Call.getBalance CommitmentConfirmed) :=
  ⟨rfl,
    (FetchBalances_queries flakyClient 0 ["addr1", "addr2", "addr3"]).2.2.2.2
      [("addr1", .ok 1.5)] "addr2" (.foreign "timeout") [("addr3", .error (.foreign "timeout"))]
      rfl (by
        intro p hp
        rw [List.mem_singleton] at hp
        exact ⟨1.5, by rw [hp]⟩)⟩

/-- C14: the code on a capability whose queries fail with the error "connection refused".
`GetTrimmedLeaderSchedule` returns it wrapped with the name of the operation, as the claim
says; `GetAssociatedVoteAccounts` and `FetchBalances` return that very error, which wraps
nothing, carries no name of an operation in its text and is not a `fmt.Errorf` wrapping of
it under any context.  None of the three repeats its query. -/
theorem transport_error_returned_bare :
    failingClient.GetLeaderSchedule () CommitmentConfirmed 7 =
      (.error (.foreign "connection refused"), ()) ∧
    (GetTrimmedLeaderSchedule failingClient () ["V1"] 7 1000).err =
      some (.wrapf "failed to get leader schedule: " (.foreign "connection refused")) ∧
    failingClient.GetVoteAccounts () "finalized" none =
      (.error (.foreign "connection refused"), ()) ∧
    (GetAssociatedVoteAccounts failingClient () "finalized" ["N1"]).err =
      some (.foreign "connection refused") ∧
    failingClient.GetBalance () CommitmentConfirmed "addr1" =
      (.error (.foreign "connection refused"), ()) ∧
    (FetchBalances failingClient () ["addr1"]).err = some (.foreign "connection refused") ∧
    (GoError.foreign "connection refused").Unwrap = none ∧
    (GoError.foreign "connection refused").Error = "connection refused" ∧
    (∀ context : String,
      (GetAssociatedVoteAccounts failingClient () "finalized" ["N1"]).err ≠
        some (.wrapf context (.foreign "connection refused")) ∧
      (FetchBalances failingClient () ["addr1"]).err ≠
        some (.wrapf context (.foreign "connection refused"))) ∧
    (GetAssociatedVoteAccounts (recording failingClient) ((), []) "finalized"
      ["N1"]).state.2 = [Call.getVoteAccounts "finalized" none] ∧
    (FetchBalances (recording failingClient) ((), []) ["addr1"]).state.2 =
      [Call.getBalance CommitmentConfirmed "addr1"] := by
  refine ⟨rfl, rfl, rfl, rfl, rfl, rfl, rfl, rfl, ?_, rfl, rfl⟩
  intro context
  constructor
  · intro h
    have h' : some (GoError.foreign "connection refused") =
        some (GoError.wrapf context (.foreign "connection refused")) := h
    cases h'
  · intro h
    have h' : some (GoError.foreign "connection refused") =
        some (GoError.wrapf context (.foreign "connection refused")) := h
    cases h'

/-- What the three querying functions do with a transport error `e`, for every capability:
`GetTrimmedLeaderSchedule` returns no value and `e` wrapped with the context
`"failed to get leader schedule: "`; `GetAssociatedVoteAccounts` and `FetchBalances` return
no value and `e` itself; run on a capability that records its calls, the first two make
their query once and `FetchBalances` makes no query after the failing one. -/
theorem transport_error_propagated {σ β : Type} (client : Provider σ β) (s : σ) :
    (∀ (identities : List String) (slot epochFirstSlot : Int) (e : GoError),
      (client.GetLeaderSchedule s CommitmentConfirmed slot).1 = Except.error e →
      (GetTrimmedLeaderSchedule client s identities slot epochFirstSlot).val = none ∧
      (GetTrimmedLeaderSchedule client s identities slot epochFirstSlot).err =
        some (.wrapf "failed to get leader schedule: " e) ∧
      (GetTrimmedLeaderSchedule (recording client) (s, []) identities slot
        epochFirstSlot).state.2 = [Call.getLeaderSchedule CommitmentConfirmed slot]) ∧
    (∀ (commitment : Commitment) (nodekeys : List String) (e : GoError),
      (client.GetVoteAccounts s commitment none).1 = Except.error e →
      (GetAssociatedVoteAccounts client s commitment nodekeys).val = none ∧
      (GetAssociatedVoteAccounts client s commitment nodekeys).err = some e ∧
      (GetAssociatedVoteAccounts (recording client) (s, []) commitment nodekeys).state.2 =
        [Call.getVoteAccounts commitment none]) ∧
    (∀ (addresses : List String) (answered : List (String × Except GoError β)) (a : String)
      (e : GoError) (later : List (String × Except GoError β)),
      balanceAnswers client addresses s = answered ++ (a, Except.error e) :: later →
      (∀ p ∈ answered, ∃ b, p.2 = Except.ok b) →
      (FetchBalances client s addresses).val = none ∧
      (FetchBalances client s addresses).err = some e ∧
      (FetchBalances (recording client) (s, []) addresses).state.2 =
        (answered.map Prod.fst ++ [a]).map (Call.getBalance CommitmentConfirmed)) := by
  refine ⟨?_, ?_, ?_⟩
  · intro identities slot epochFirstSlot e he
    rcases hq : client.GetLeaderSchedule s CommitmentConfirmed slot with ⟨r, s'⟩
    rw [hq] at he
    simp only at he
    subst he
    have hrec : (recording client).GetLeaderSchedule (s, []) CommitmentConfirmed slot =
        (Except.error e, (s', [Call.getLeaderSchedule CommitmentConfirmed slot])) := by
      simp [recording, hq]
    simp only [GetTrimmedLeaderSchedule, hq, hrec, and_self]
  · intro commitment nodekeys e he
    rcases hq : client.GetVoteAccounts s commitment none with ⟨r, s'⟩
    rw [hq] at he
    simp only at he
    subst he
    have hrec : (recording client).GetVoteAccounts (s, []) commitment none =
        (Except.error e, (s', [Call.getVoteAccounts commitment none])) := by
      simp [recording, hq]
    simp only [GetAssociatedVoteAccounts, hq, hrec, and_self]
  · intro addresses answered a e later hans hok
    obtain ⟨hval, herr⟩ :=
      fetchLoop_first_error client a e later answered addresses (∅ : GoMap β) s hans hok
    obtain ⟨_, _, hcalls⟩ := fetchLoop_recording client addresses (∅ : GoMap β) s []
    refine ⟨hval, herr, ?_⟩
    unfold FetchBalances
    rw [hcalls, hans, queriedPrefix_of_first_error a e later answered hok, List.nil_append]

/-- The three functions on a capability all of whose queries fail with "connection
refused", and `FetchBalances` on the capability answering `1.5` and then errors. -/
theorem transport_error_propagated_witness :
    ((GetTrimmedLeaderSchedule failingClient () ["V1"] 7 1000).val = none ∧
      (GetTrimmedLeaderSchedule failingClient () ["V1"] 7 1000).err =
        some (.wrapf "failed to get leader schedule: " (.foreign "connection refused")) ∧
      (GetTrimmedLeaderSchedule (recording failingClient) ((), []) ["V1"] 7 1000).state.2 =
        [Call.getLeaderSchedule CommitmentConfirmed 7]) ∧
    ((GetAssociatedVoteAccounts failingClient () "finalized" ["N1"]).val = none ∧
      (GetAssociatedVoteAccounts failingClient () "finalized" ["N1"]).err =
        some (.foreign "connection refused") ∧
      (GetAssociatedVoteAccounts (recording failingClient) ((), []) "finalized"
        ["N1"]).state.2 = [Call.getVoteAccounts "finalized" none]) ∧
    ((FetchBalances flakyClient 0 ["addr1", "addr2"]).val = none ∧
      (FetchBalances flakyClient 0 ["addr1", "addr2"]).err = some (.foreign "timeout") ∧
      (FetchBalances (recording flakyClient) (0, []) ["addr1", "addr2"]).state.2 =
        ([("addr1", (Except.ok 1.5 : Except GoError Rat))].map Prod.fst ++ ["addr2"]).map
          (Call.getBalance CommitmentConfirmed)) :=
  ⟨(transport_error_propagated failingClient ()).1 ["V1"] 7 1000
      (.foreign "connection refused") rfl,
    (transport_error_propagated failingClient ()).2.1 "finalized" ["N1"]
      (.foreign "connection refused") rfl,
    (transport_error_propagated flakyClient 0).2.2 ["addr1", "addr2"]
      [("addr1", .ok 1.5)] "addr2" (.foreign "timeout") [] rfl (by
        intro p hp
        rw [List.mem_singleton] at hp
        exact ⟨1.5, by rw [hp]⟩)⟩

end SolanaExporter
